import Mathlib

/- Shallow embedding of `GnuPGInterface.py` (py-gnupg): the handle-registry,
pipe-wiring and process-launch subsystem — `GnuPG.run`,
`GnuPG._attach_fork_exec`, `GnuPG._handle_pipes`, `GnuPG._launch_process`,
`Options.get_args` and `Process.wait`.

OS effects (pipe creation, descriptor close, spawn) are modelled by explicit
state passing on an `OS` record; Python exceptions are modelled by `Except`,
returning the mutated state alongside the error because Python side effects
survive a raised exception.  Python dictionaries are association lists whose
list order stands for the dictionary's (unspecified) iteration order; a lookup
returns the first matching key, an assignment replaces in place or appends. -/

namespace GnuPGInterface

/-- Lookup in an association-list model of a Python dictionary
(first matching key wins). -/
def dictLookup {α : Type} (k : String) : List (String × α) → Option α
  | [] => none
  | (k', v) :: rest => if k' = k then some v else dictLookup k rest

/-- Python dictionary assignment `d[k] = v`: replace the entry in place when
the key is present, otherwise append a new entry. -/
def dictInsert {α : Type} (k : String) (v : α) : List (String × α) → List (String × α)
  | [] => [(k, v)]
  | (k', v') :: rest =>
    if k' = k then (k, v) :: rest else (k', v') :: dictInsert k v rest

/-- Python dictionary deletion `del d[k]`: remove the entry with the key. -/
def dictErase {α : Type} (k : String) : List (String × α) → List (String × α)
  | [] => []
  | (k', v') :: rest => if k' = k then rest else (k', v') :: dictErase k rest

/-- “standard” filehandles attached to processes (`_stds` in the source). -/
def stds : List String := ["stdin", "stdout", "stderr"]

/-- the permissions each type of fh needs to be opened with (`_fd_modes`). -/
def fd_modes : List (String × Char) :=
  [("stdin", 'w'), ("stdout", 'r'), ("stderr", 'r'), ("passphrase", 'w'),
   ("command", 'w'), ("logger", 'r'), ("status", 'r')]

/-- correlation between handle names and the arguments passed to gpg
(`_fd_options`). -/
def fd_options : List (String × String) :=
  [("passphrase", "--passphrase-fd"), ("logger", "--logger-fd"),
   ("status", "--status-fd"), ("command", "--command-fd")]

/-- Errors raised by the Python code: `KeyError` (unrecognized handle name),
`ValueError` (a handle both created and attached), `OSError` from `os.pipe`
(pipe allocation failure), an exception from `subprocess.Popen` (spawn
failure), `UnboundLocalError` (a local read before assignment), and the
`IOError` raised by `Process.wait`. -/
inductive GErr where
  | keyError (name : String)
  | valueError (name : String)
  | pipeAllocationFailed
  | spawnFailed
  | unboundLocal (var : String)
  | ioError (code : Int)
deriving DecidableEq, Repr

/-- The parent process's view of the operating system: the next free file
descriptor number, the list of descriptors currently open in the parent,
how many more `os.pipe` calls will succeed before the OS refuses
(to model resource exhaustion), whether `subprocess.Popen` will succeed,
how many children have been spawned, and the next child PID. -/
structure OS where
  nextFd : Nat
  openFds : List Nat
  pipeBudget : Nat
  spawnOk : Bool
  spawnCount : Nat
  nextPid : Nat
deriving DecidableEq, Repr

/-- `os.pipe()`: returns a fresh (readEnd, writeEnd) descriptor pair, or
fails when the OS refuses to allocate. -/
def os_pipe (os : OS) : Except GErr (Nat × Nat) × OS :=
  if os.pipeBudget = 0 then (.error .pipeAllocationFailed, os)
  else
    (.ok (os.nextFd, os.nextFd + 1),
     { os with nextFd := os.nextFd + 2,
               openFds := os.openFds ++ [os.nextFd, os.nextFd + 1],
               pipeBudget := os.pipeBudget - 1 })

/-- `os.close(fd)` (also `fh.close()` on a wrapped descriptor). -/
def os_close (fd : Nat) (os : OS) : OS :=
  { os with openFds := os.openFds.filter (fun f => f ≠ fd) }

/-- The descriptor of the calling process's own standard stream, i.e.
`getattr(sys, std).fileno()` for `std` in `_stds`. -/
def stdFd (std : String) : Nat :=
  if std = "stdin" then 0 else if std = "stdout" then 1 else 2

/-- simple struct holding stuff about pipes we use (class `Pipe`). -/
structure Pipe where
  parent : Nat
  child : Nat
  direct : Bool
deriving DecidableEq, Repr

/-- State of a `Process` object: `_pipes` and `handles` are dictionaries
(association lists); `handles` maps a name to the wrapped parent-side
descriptor together with its `fdopen` mode.  `subprocCommand` records the
argv handed to `subprocess.Popen` and `spawnStdio` the three child-side
descriptors bound to the child's stdin/stdout/stderr. -/
structure Process where
  pipes : List (String × Pipe)
  handles : List (String × Nat × Char)
  pid : Option Nat
  subprocCommand : Option (List String)
  spawnStdio : Option (Nat × Nat × Nat)
deriving DecidableEq, Repr

/-- `Process.__init__`. -/
def Process.init : Process := ⟨[], [], none, none, none⟩

/-- The serialized option arguments (class `Options`). -/
structure Options where
  armor : Bool
  no_greeting : Bool
  verbose : Bool
  no_verbose : Bool
  batch : Bool
  always_trust : Bool
  rfc1991 : Bool
  openpgp : Bool
  quiet : Bool
  no_options : Bool
  textmode : Bool
  force_v3_sigs : Bool
  meta_pgp_5_compatible : Bool
  meta_pgp_2_compatible : Bool
  meta_interactive : Bool
  homedir : Option String
  default_key : Option String
  comment : Option String
  compress_algo : Option String
  options : Option String
  keyring : Option String
  secret_keyring : Option String
  encrypt_to : List String
  recipients : List String
  extra_args : List String
deriving DecidableEq, Repr

/-- `Options.__init__`: booleans and metas default to false except
`meta_interactive`, strings to `None`, lists to empty. -/
def Options.init : Options :=
  { armor := false, no_greeting := false, verbose := false, no_verbose := false,
    batch := false, always_trust := false, rfc1991 := false, openpgp := false,
    quiet := false, no_options := false, textmode := false, force_v3_sigs := false,
    meta_pgp_5_compatible := false, meta_pgp_2_compatible := false,
    meta_interactive := true,
    homedir := none, default_key := none, comment := none, compress_algo := none,
    options := none, keyring := none, secret_keyring := none,
    encrypt_to := [], recipients := [], extra_args := [] }

/-- Helper for `Options.get_standard_args`: a string-valued option
contributes its flag and value when set. -/
def optStr (flag : String) : Option String → List String
  | some v => [flag, v]
  | none => []

/-- Helper for `Options.get_standard_args`: a boolean option contributes
its flag when set. -/
def optBool (flag : String) (b : Bool) : List String :=
  if b then [flag] else []

/-- `Options.get_standard_args`. -/
def Options.get_standard_args (o : Options) : List String :=
  optStr "--homedir" o.homedir ++ optStr "--options" o.options ++
  optStr "--comment" o.comment ++ optStr "--compress-algo" o.compress_algo ++
  optStr "--default-key" o.default_key ++ optStr "--keyring" o.keyring ++
  optStr "--secret-keyring" o.secret_keyring ++
  optBool "--no-options" o.no_options ++ optBool "--armor" o.armor ++
  optBool "--textmode" o.textmode ++ optBool "--no-greeting" o.no_greeting ++
  optBool "--verbose" o.verbose ++ optBool "--no-verbose" o.no_verbose ++
  optBool "--quiet" o.quiet ++ optBool "--batch" o.batch ++
  optBool "--always-trust" o.always_trust ++
  optBool "--force-v3-sigs" o.force_v3_sigs ++
  optBool "--rfc1991" o.rfc1991 ++ optBool "--openpgp" o.openpgp ++
  (o.recipients.foldl (fun a r => a ++ ["--recipient", r]) []) ++
  (o.encrypt_to.foldl (fun a r => a ++ ["--encrypt-to", r]) [])

/-- `Options.get_meta_args`. -/
def Options.get_meta_args (o : Options) : List String :=
  (if o.meta_pgp_5_compatible then ["--compress-algo", "1", "--force-v3-sigs"]
   else []) ++
  (if o.meta_pgp_2_compatible then ["--rfc1991"] else []) ++
  (if !o.meta_interactive then ["--batch", "--no-tty"] else [])

/-- `Options.get_args`. -/
def Options.get_args (o : Options) : List String :=
  o.get_meta_args ++ o.get_standard_args ++ o.extra_args

/-- State of a `GnuPG` object. -/
structure GnuPG where
  call : String
  passphrase : Option String
  options : Options
deriving DecidableEq, Repr

/-- `GnuPG.__init__`. -/
def GnuPG.init : GnuPG := ⟨"gpg", none, Options.init⟩

/-- The name-validation loop at the top of `_attach_fork_exec`: every name in
`create_fhs + attach_fhs.keys()` must be a key of `_fd_modes`, else
`KeyError` is raised at the first offending name. -/
def checkNames : List String → Except GErr Unit
  | [] => .ok ()
  | n :: rest =>
    if (dictLookup n fd_modes).isSome then checkNames rest
    else .error (.keyError n)

/-- The pipe-creating loop of `_attach_fork_exec` over `create_fhs`: per name,
first the create/attach conflict check (`ValueError`), then `os.pipe()`,
orientation fix for parent-writes handles, and the `_pipes` dictionary
assignment.  The `fcntl` close-on-exec marking has no observable effect in
this model and is omitted. -/
def createPipes (attach_fhs : List (String × Nat)) :
    List String → Process → OS → Except GErr Process × OS
  | [], proc, os => (.ok proc, os)
  | fh_name :: rest, proc, os =>
    if (dictLookup fh_name attach_fhs).isSome then
      (.error (.valueError fh_name), os)
    else
      match os_pipe os with
      | (.error e, os') => (.error e, os')
      | (.ok pfds, os') =>
        let pipe := if dictLookup fh_name fd_modes = some 'w'
          then Pipe.mk pfds.2 pfds.1 false
          else Pipe.mk pfds.1 pfds.2 false
        createPipes attach_fhs rest
          { proc with pipes := dictInsert fh_name pipe proc.pipes } os'

/-- The attach loop of `_attach_fork_exec`: each attached file contributes a
direct endpoint whose parent and child descriptors are both `fh.fileno()`. -/
def attachPipes (attach_fhs : List (String × Nat)) (proc : Process) : Process :=
  attach_fhs.foldl
    (fun pr kv =>
      { pr with pipes := dictInsert kv.1 (Pipe.mk kv.2 kv.2 true) pr.pipes })
    proc

/-- The `fd_args` loop of `_launch_process`: for every non-standard handle in
`process._pipes`, in dictionary iteration order, append the registered flag
(`_fd_options[k]`, a `KeyError` if absent) and the decimal child descriptor. -/
def fdArgs : List (String × Pipe) → Except GErr (List String)
  | [] => .ok []
  | (k, p) :: rest =>
    if k ∈ stds then fdArgs rest
    else
      match dictLookup k fd_options with
      | none => .error (.keyError k)
      | some flag => (fdArgs rest).map (fun tail => flag :: toString p.child :: tail)

/-- `GnuPG._launch_process`: builds the argument vector and spawns the child
via `subprocess.Popen`.  The keyword arguments are evaluated left to right:
the `_pipes` lookups for stdin/stdout/stderr first (a `KeyError` if absent),
then the reference to the local `preexec_fn`, which was only assigned when
`fd_args` is non-empty — otherwise an `UnboundLocalError` is raised and no
child is spawned. -/
def launch_process (g : GnuPG) (gnupg_commands args : List String)
    (proc : Process) (os : OS) : Except GErr Process × OS :=
  match fdArgs proc.pipes with
  | .error e => (.error e, os)
  | .ok fd_args =>
    let command := [g.call] ++ fd_args ++ g.options.get_args ++
      gnupg_commands ++ args
    match dictLookup "stdin" proc.pipes with
    | none => (.error (.keyError "stdin"), os)
    | some pin =>
      match dictLookup "stdout" proc.pipes with
      | none => (.error (.keyError "stdout"), os)
      | some pout =>
        match dictLookup "stderr" proc.pipes with
        | none => (.error (.keyError "stderr"), os)
        | some perr =>
          if fd_args.length = 0 then (.error (.unboundLocal "preexec_fn"), os)
          else if os.spawnOk then
            (.ok { proc with
                     pid := some os.nextPid,
                     subprocCommand := some command,
                     spawnStdio := some (pin.child, pout.child, perr.child) },
             { os with spawnCount := os.spawnCount + 1,
                       nextPid := os.nextPid + 1 })
          else (.error .spawnFailed, os)

/-- The loop body of `GnuPG._handle_pipes`: for every non-direct pipe, close
the child-side descriptor and wrap the parent-side descriptor via
`os.fdopen(p.parent, _fd_modes[k])` into `handles`.  The close happens before
the mode lookup, matching Python's evaluation order. -/
def handle_pipesAux : List (String × Pipe) → Process → OS → Except GErr Process × OS
  | [], proc, os => (.ok proc, os)
  | (k, p) :: rest, proc, os =>
    if p.direct then handle_pipesAux rest proc os
    else
      let os' := os_close p.child os
      match dictLookup k fd_modes with
      | none => (.error (.keyError k), os')
      | some mode =>
        handle_pipesAux rest
          { proc with handles := dictInsert k (p.parent, mode) proc.handles } os'

/-- `GnuPG._handle_pipes`: deal with pipes after the child has been created,
then delete the `_pipes` bookkeeping (`del process._pipes`). -/
def handle_pipes (proc : Process) (os : OS) : Except GErr Process × OS :=
  match handle_pipesAux proc.pipes proc os with
  | (.ok proc', os') => (.ok { proc' with pipes := [] }, os')
  | (.error e, os') => (.error e, os')

/-- `GnuPG._attach_fork_exec`: validate names, create pipes, record
attachments, launch the child and post-process the pipes. -/
def attach_fork_exec (g : GnuPG) (gnupg_commands args : List String)
    (create_fhs : List String) (attach_fhs : List (String × Nat)) (os : OS) :
    Except GErr Process × OS :=
  match checkNames (create_fhs ++ attach_fhs.map Prod.fst) with
  | .error e => (.error e, os)
  | .ok _ =>
    match createPipes attach_fhs create_fhs Process.init os with
    | (.error e, os') => (.error e, os')
    | (.ok proc, os') =>
      match launch_process g gnupg_commands args (attachPipes attach_fhs proc) os' with
      | (.error e, os'') => (.error e, os'')
      | (.ok proc', os'') => handle_pipes proc' os''

/-- The std-defaulting loop at the top of `GnuPG.run`: every standard name
missing from both request sets is attached to the calling process's own
corresponding stream (`attach_fhs.setdefault(std, getattr(sys, std))`). -/
def addStds (create_fhs : List String) (attach_fhs : List (String × Nat)) :
    List (String × Nat) :=
  stds.foldl
    (fun att std =>
      if dictLookup std att = none ∧ std ∉ create_fhs
      then att ++ [(std, stdFd std)] else att)
    attach_fhs

/-- The condition under which `run` handles the passphrase itself:
a passphrase is configured and `passphrase` is in neither request set. -/
def passTrigger (g : GnuPG) (create_fhs : List String)
    (attach_fhs : List (String × Nat)) : Bool :=
  g.passphrase.isSome && (dictLookup "passphrase" attach_fhs).isNone &&
    decide ("passphrase" ∉ create_fhs)

/-- Observable I/O performed by `run` on the handles it returns or consumes:
a write of bytes to a descriptor, or a close of a descriptor. -/
inductive Event where
  | wrote (fd : Nat) (data : String)
  | closedHandle (fd : Nat)
deriving DecidableEq, Repr

/-- The complete observable outcome of one `GnuPG.run` call: the returned
`Process` (or the exception), the OS state, the caller's `create_fhs` list
and `attach_fhs` dictionary as mutated in place by the call, and the trace
of writes/closes `run` performed itself. -/
structure RunOutcome where
  result : Except GErr Process
  os : OS
  create_fhs : List String
  attach_fhs : List (String × Nat)
  trace : List Event
deriving Repr

/-- `GnuPG.run`: default the standard handles, decide the passphrase
convenience, call `_attach_fork_exec`, then deliver the configured
passphrase (write then close) and strip the `passphrase` handle. -/
def GnuPG.run (g : GnuPG) (gnupg_commands args : List String)
    (create_fhs : List String) (attach_fhs : List (String × Nat)) (os : OS) :
    RunOutcome :=
  let attach2 := addStds create_fhs attach_fhs
  let hp := passTrigger g create_fhs attach2
  let create2 := if hp then create_fhs ++ ["passphrase"] else create_fhs
  match attach_fork_exec g gnupg_commands args create2 attach2 os with
  | (.error e, os') => ⟨.error e, os', create2, attach2, []⟩
  | (.ok proc, os') =>
    if hp then
      match dictLookup "passphrase" proc.handles with
      | none => ⟨.error (.keyError "passphrase"), os', create2, attach2, []⟩
      | some fm =>
        ⟨.ok { proc with handles := dictErase "passphrase" proc.handles },
         os_close fm.1 os', create2, attach2,
         [Event.wrote fm.1 (g.passphrase.getD ""), Event.closedHandle fm.1]⟩
    else ⟨.ok proc, os', create2, attach2, []⟩

/-- `Process.wait`: wait on the child to exit; raise `IOError` carrying the
exit code when it is non-zero. -/
def Process.wait (exitCode : Int) : Except GErr Unit :=
  if exitCode ≠ 0 then .error (.ioError exitCode) else .ok ()

/- Derived specification helpers: closed forms for the states the functions
above build, used to phrase the theorems.  They are spec-side descriptions,
not part of the embedding of the source. -/

/-- The 2·k descriptors allocated by k successful `os.pipe` calls starting
at descriptor number `start`. -/
def allocFds : Nat → Nat → List Nat
  | 0, _ => []
  | k + 1, start => start :: (start + 1) :: allocFds k (start + 2)

/-- The `_pipes` entries the create loop builds for the given names when
allocation starts at descriptor `start`: each name gets a fresh pipe,
oriented so that the parent holds the writable end for parent-writes
handles. -/
def createdList : List String → Nat → List (String × Pipe)
  | [], _ => []
  | n :: rest, start =>
    (n, if dictLookup n fd_modes = some 'w'
        then Pipe.mk (start + 1) start false
        else Pipe.mk start (start + 1) false) :: createdList rest (start + 2)

/-- Child-side descriptors of the non-direct pipes of a pipe map, in order. -/
def childFds (l : List (String × Pipe)) : List Nat :=
  (l.filter (fun kp => !kp.2.direct)).map (fun kp => kp.2.child)

/-- The handles `_handle_pipes` wraps: one entry per non-direct pipe,
carrying the parent-side descriptor and the registry mode. -/
def wrapHandles : List (String × Pipe) → List (String × Nat × Char)
  | [] => []
  | (k, p) :: rest =>
    if p.direct then wrapHandles rest
    else
      match dictLookup k fd_modes with
      | none => wrapHandles rest
      | some m => (k, p.parent, m) :: wrapHandles rest

/-- The OS after closing the child end of every non-direct pipe. -/
def closeChildren : List (String × Pipe) → OS → OS
  | [], os => os
  | (_, p) :: rest, os =>
    if p.direct then closeChildren rest os
    else closeChildren rest (os_close p.child os)

/-- The full `_pipes` dictionary after the create loop and the attach loop:
fresh pipes for the created names followed by direct endpoints for the
attachments. -/
def pipesAfterWiring (create : List String) (attach : List (String × Nat))
    (start : Nat) : List (String × Pipe) :=
  createdList create start ++ attach.map (fun kv => (kv.1, Pipe.mk kv.2 kv.2 true))

/- Concrete scenarios used in witnesses and counterexamples: a parent with
the three standard descriptors open, plenty of pipe budget and a working
spawn; a default GnuPG object and one with a configured passphrase. -/

/-- Witness scenario: initial OS state. -/
def osW : OS := ⟨3, [0, 1, 2], 10, true, 0, 100⟩

/-- Witness scenario: a default GnuPG object. -/
def gW : GnuPG := ⟨"gpg", none, Options.init⟩

/-- Witness scenario: a GnuPG object with a configured passphrase. -/
def gWpass : GnuPG := ⟨"gpg", some "hunter2", Options.init⟩

/-- Witness scenario: a resolved pipe map with the three standard handles
piped and one status pipe. -/
def pipesW : List (String × Pipe) :=
  [("stdin", Pipe.mk 4 3 false), ("stdout", Pipe.mk 5 6 false),
   ("stderr", Pipe.mk 7 8 false), ("status", Pipe.mk 9 10 false)]

/-- Witness scenario: a process wired with `pipesW`, pre-launch. -/
def procW : Process := ⟨pipesW, [], none, none, none⟩

/-- Witness scenario: the process returned by a run with a configured
passphrase and `create_fhs=[stdin, stdout]` from `osW`. -/
def procC4 : Process :=
  ⟨[], [("stdin", 4, 'w'), ("stdout", 5, 'r')], some 100,
   some ["gpg", "--passphrase-fd", "7", "--decrypt"], some (3, 6, 2)⟩

/-- Witness scenario: the process returned by `_attach_fork_exec` creating
all three standard handles plus `status`. -/
def procC6 : Process :=
  ⟨[], [("stdin", 4, 'w'), ("stdout", 5, 'r'), ("stderr", 7, 'r'),
        ("status", 9, 'r')],
   some 40, some ["gpg", "--status-fd", "10", "--x"], some (3, 6, 8)⟩

/-- Witness scenario: the process returned by a run creating stdin, stdout
and status, with stderr defaulted to the caller's stream. -/
def procC7 : Process :=
  ⟨[], [("stdin", 4, 'w'), ("stdout", 5, 'r'), ("status", 7, 'r')],
   some 100, some ["gpg", "--status-fd", "8", "--decrypt", "f"],
   some (3, 6, 2)⟩

/- Theorems: dictionary (association-list) lemmas. -/

theorem dictLookup_append_of_none {α : Type} (k : String) :
    ∀ l1 l2 : List (String × α), dictLookup k l1 = none →
      dictLookup k (l1 ++ l2) = dictLookup k l2
  | [], _, _ => rfl
  | (k', v) :: rest, l2, h => by
    by_cases hk : k' = k
    · simp [dictLookup, hk] at h
    · simp only [dictLookup, if_neg hk] at h
      simp only [List.cons_append, dictLookup, if_neg hk]
      exact dictLookup_append_of_none k rest l2 h

theorem dictLookup_append_of_some {α : Type} (k : String) (v : α) :
    ∀ l1 l2 : List (String × α), dictLookup k l1 = some v →
      dictLookup k (l1 ++ l2) = some v
  | [], _, h => by simp [dictLookup] at h
  | (k', v') :: rest, l2, h => by
    by_cases hk : k' = k
    · simp only [dictLookup, if_pos hk] at h
      simp only [List.cons_append, dictLookup, if_pos hk, h]
    · simp only [dictLookup, if_neg hk] at h
      simp only [List.cons_append, dictLookup, if_neg hk]
      exact dictLookup_append_of_some k v rest l2 h

theorem dictLookup_append_of_disjoint {α : Type} (k : String) :
    ∀ l1 l2 : List (String × α), (∀ kv ∈ l2, kv.1 ≠ k) →
      dictLookup k (l1 ++ l2) = dictLookup k l1
  | [], l2, h => by
    induction l2 with
    | nil => rfl
    | cons kv rest ih =>
      obtain ⟨k', v⟩ := kv
      have hk : k' ≠ k := h (k', v) (List.mem_cons_self _ _)
      simp only [List.nil_append, dictLookup, if_neg hk]
      simpa using ih (fun kv hkv => h kv (List.mem_cons_of_mem _ hkv))
  | (k', v) :: rest, l2, h => by
    by_cases hk : k' = k
    · simp only [List.cons_append, dictLookup, if_pos hk]
    · simp only [List.cons_append, dictLookup, if_neg hk]
      exact dictLookup_append_of_disjoint k rest l2 h

theorem dictLookup_eq_none_iff {α : Type} (k : String) :
    ∀ l : List (String × α), dictLookup k l = none ↔ k ∉ l.map Prod.fst
  | [] => by simp [dictLookup]
  | (k', v) :: rest => by
    by_cases hk : k' = k
    · simp [dictLookup, hk]
    · simp [dictLookup, hk, dictLookup_eq_none_iff k rest, Ne.symm hk]

theorem dictLookup_isSome_iff {α : Type} (k : String) (l : List (String × α)) :
    (dictLookup k l).isSome = true ↔ k ∈ l.map Prod.fst := by
  constructor
  · intro h
    by_contra hmem
    rw [(dictLookup_eq_none_iff k l).mpr hmem] at h
    simp at h
  · intro hmem
    cases hcase : dictLookup k l with
    | none => exact absurd hmem ((dictLookup_eq_none_iff k l).mp hcase)
    | some v => simp

theorem dictInsert_of_none {α : Type} (k : String) (v : α) :
    ∀ l : List (String × α), dictLookup k l = none →
      dictInsert k v l = l ++ [(k, v)]
  | [], _ => rfl
  | (k', v') :: rest, h => by
    by_cases hk : k' = k
    · simp [dictLookup, hk] at h
    · simp only [dictLookup, if_neg hk] at h
      simp only [dictInsert, if_neg hk, List.cons_append]
      rw [dictInsert_of_none k v rest h]

theorem dictLookup_dictInsert_self {α : Type} (k : String) (v : α) :
    ∀ l : List (String × α), dictLookup k (dictInsert k v l) = some v
  | [] => by simp [dictInsert, dictLookup]
  | (k', v') :: rest => by
    by_cases hk : k' = k
    · simp [dictInsert, dictLookup, hk]
    · simp only [dictInsert, if_neg hk, dictLookup, if_neg hk]
      exact dictLookup_dictInsert_self k v rest

theorem dictLookup_dictInsert_ne {α : Type} (k k' : String) (v : α)
    (hk : k' ≠ k) :
    ∀ l : List (String × α), dictLookup k (dictInsert k' v l) = dictLookup k l
  | [] => by simp [dictInsert, dictLookup, hk]
  | (k₀, v₀) :: rest => by
    by_cases h0 : k₀ = k'
    · simp only [dictInsert, if_pos h0, dictLookup, if_neg hk, h0]
    · simp only [dictInsert, if_neg h0, dictLookup]
      by_cases h1 : k₀ = k
      · simp [h1]
      · simp only [if_neg h1]
        exact dictLookup_dictInsert_ne k k' v hk rest

theorem mem_keys_dictInsert {α : Type} (k k' : String) (v : α) :
    ∀ l : List (String × α),
      k' ∈ (dictInsert k v l).map Prod.fst → k' = k ∨ k' ∈ l.map Prod.fst
  | [] => by simp [dictInsert]
  | (k₀, v₀) :: rest => by
    by_cases h0 : k₀ = k
    · simp [dictInsert, h0]
    · simp only [dictInsert, if_neg h0, List.map_cons, List.mem_cons]
      intro h
      rcases h with h | h
      · exact Or.inr (Or.inl h)
      · rcases mem_keys_dictInsert k k' v rest h with h | h
        · exact Or.inl h
        · exact Or.inr (Or.inr h)

theorem keys_nodup_dictInsert {α : Type} (k : String) (v : α) :
    ∀ l : List (String × α), (l.map Prod.fst).Nodup →
      ((dictInsert k v l).map Prod.fst).Nodup
  | [], _ => by simp [dictInsert]
  | (k₀, v₀) :: rest, h => by
    simp only [List.map_cons, List.nodup_cons] at h
    by_cases h0 : k₀ = k
    · subst h0
      simpa [dictInsert, List.nodup_cons] using h
    · simp only [dictInsert, if_neg h0, List.map_cons, List.nodup_cons]
      refine ⟨fun hmem => ?_, keys_nodup_dictInsert k v rest h.2⟩
      rcases mem_keys_dictInsert k k₀ v rest hmem with h1 | h1
      · exact h0 h1
      · exact h.1 h1

theorem dictLookup_isSome_dictInsert {α : Type} (k k' : String) (v : α)
    (l : List (String × α)) (h : (dictLookup k l).isSome = true) :
    (dictLookup k (dictInsert k' v l)).isSome = true := by
  by_cases hk : k' = k
  · subst hk
    simp [dictLookup_dictInsert_self]
  · rwa [dictLookup_dictInsert_ne k k' v hk]

theorem dictLookup_dictErase_ne {α : Type} (k k' : String) (hk : k' ≠ k) :
    ∀ l : List (String × α), dictLookup k (dictErase k' l) = dictLookup k l
  | [] => rfl
  | (k₀, v₀) :: rest => by
    by_cases h0 : k₀ = k'
    · subst h0
      simp [dictErase, dictLookup, hk]
    · simp only [dictErase, if_neg h0, dictLookup]
      by_cases h1 : k₀ = k
      · simp [h1]
      · simp only [if_neg h1]
        exact dictLookup_dictErase_ne k k' hk rest

theorem dictLookup_dictErase_self {α : Type} (k : String) :
    ∀ l : List (String × α), (l.map Prod.fst).Nodup →
      dictLookup k (dictErase k l) = none
  | [], _ => rfl
  | (k₀, v₀) :: rest, h => by
    simp only [List.map_cons, List.nodup_cons] at h
    by_cases h0 : k₀ = k
    · subst h0
      simp only [dictErase, if_pos rfl]
      exact (dictLookup_eq_none_iff k₀ rest).mpr h.1
    · simp only [dictErase, if_neg h0, dictLookup, if_neg h0]
      exact dictLookup_dictErase_self k rest h.2

theorem dictLookup_map_pair (f : String → Nat) (s : String) :
    ∀ l : List String, l.Nodup → s ∈ l →
      dictLookup s (l.map (fun x => (x, f x))) = some (f s)
  | [], _, hm => by simp at hm
  | x :: rest, hnd, hm => by
    simp only [List.nodup_cons] at hnd
    by_cases hx : x = s
    · simp [dictLookup, hx]
    · simp only [List.mem_cons] at hm
      rcases hm with hm | hm
      · exact absurd hm.symm hx
      · simp only [List.map_cons, dictLookup, if_neg hx]
        exact dictLookup_map_pair f s rest hnd.2 hm

theorem dictLookup_map_val {α β : Type} (f : α → β) (k : String) :
    ∀ l : List (String × α),
      dictLookup k (l.map (fun kv => (kv.1, f kv.2))) =
        (dictLookup k l).map f
  | [] => rfl
  | (k₀, v₀) :: rest => by
    by_cases h0 : k₀ = k
    · simp [dictLookup, h0]
    · simp only [List.map_cons, dictLookup, if_neg h0]
      exact dictLookup_map_val f k rest

/- Theorems: the name-validation loop. -/

theorem checkNames_ok_of :
    ∀ l : List String, (∀ n ∈ l, (dictLookup n fd_modes).isSome = true) →
      checkNames l = .ok ()
  | [], _ => rfl
  | n :: rest, h => by
    simp only [checkNames, if_pos (h n (List.mem_cons_self _ _))]
    exact checkNames_ok_of rest (fun m hm => h m (List.mem_cons_of_mem _ hm))

theorem checkNames_ok_mem :
    ∀ l : List String, checkNames l = .ok () →
      ∀ n ∈ l, (dictLookup n fd_modes).isSome = true
  | [], _, n, hn => by simp at hn
  | m :: rest, h, n, hn => by
    by_cases hv : (dictLookup m fd_modes).isSome = true
    · simp only [checkNames, if_pos hv] at h
      rcases List.mem_cons.mp hn with rfl | hn
      · exact hv
      · exact checkNames_ok_mem rest h n hn
    · simp [checkNames, hv] at h

theorem checkNames_fails :
    ∀ l : List String, (∃ n ∈ l, dictLookup n fd_modes = none) →
      ∃ m, checkNames l = .error (.keyError m) ∧ m ∈ l ∧
        dictLookup m fd_modes = none
  | [], h => by simp at h
  | n :: rest, h => by
    by_cases hv : (dictLookup n fd_modes).isSome = true
    · obtain ⟨m, hm, hmn⟩ := h
      rcases List.mem_cons.mp hm with rfl | hm
      · rw [hmn] at hv
        simp at hv
      · obtain ⟨m', h1, h2, h3⟩ := checkNames_fails rest ⟨m, hm, hmn⟩
        exact ⟨m', by simpa [checkNames, hv] using h1,
          List.mem_cons_of_mem _ h2, h3⟩
    · refine ⟨n, ?_, List.mem_cons_self _ _, ?_⟩
      · simp [checkNames, hv]
      · simpa using hv

/- Theorems: the std-defaulting step of `run`. -/

theorem addStds_foldl_eq (c : List String) :
    ∀ (L : List String) (a : List (String × Nat)), L.Nodup →
      L.foldl (fun att std =>
          if dictLookup std att = none ∧ std ∉ c
          then att ++ [(std, stdFd std)] else att) a =
        a ++ (L.filter
          (fun s => decide (dictLookup s a = none ∧ s ∉ c))).map
          (fun s => (s, stdFd s))
  | [], a, _ => by simp
  | s :: rest, a, hnd => by
    simp only [List.nodup_cons] at hnd
    simp only [List.foldl_cons]
    by_cases hs : dictLookup s a = none ∧ s ∉ c
    · rw [if_pos hs, addStds_foldl_eq c rest _ hnd.2]
      have hcong : rest.filter
          (fun x => decide (dictLookup x (a ++ [(s, stdFd s)]) = none ∧ x ∉ c)) =
          rest.filter (fun x => decide (dictLookup x a = none ∧ x ∉ c)) := by
        refine List.filter_congr ?_
        intro x hx
        have hxs : ∀ kv ∈ [(s, stdFd s)], kv.1 ≠ x := by
          intro kv hkv
          simp only [List.mem_singleton] at hkv
          subst hkv
          intro he
          have he' : s = x := he
          exact hnd.1 (he' ▸ hx)
        rw [dictLookup_append_of_disjoint x a _ hxs]
      rw [hcong]
      have hfilter : (s :: rest).filter
          (fun x => decide (dictLookup x a = none ∧ x ∉ c)) =
          s :: rest.filter (fun x => decide (dictLookup x a = none ∧ x ∉ c)) := by
        simp [List.filter_cons, hs]
      rw [hfilter]
      simp
    · rw [if_neg hs, addStds_foldl_eq c rest a hnd.2]
      have hfilter : (s :: rest).filter
          (fun x => decide (dictLookup x a = none ∧ x ∉ c)) =
          rest.filter (fun x => decide (dictLookup x a = none ∧ x ∉ c)) := by
        simp [List.filter_cons, hs]
      rw [hfilter]

theorem addStds_eq (c : List String) (a : List (String × Nat)) :
    addStds c a = a ++ (stds.filter
      (fun s => decide (dictLookup s a = none ∧ s ∉ c))).map
      (fun s => (s, stdFd s)) :=
  addStds_foldl_eq c stds a (by decide)

theorem addStds_lookup_of_mem_create (c : List String)
    (a : List (String × Nat)) (n : String) (h : n ∈ c) :
    dictLookup n (addStds c a) = dictLookup n a := by
  rw [addStds_eq]
  refine dictLookup_append_of_disjoint _ a _ ?_
  intro kv hkv
  simp only [List.mem_map, List.mem_filter] at hkv
  obtain ⟨s, ⟨hs, hcond⟩, rfl⟩ := hkv
  simp only [decide_eq_true_eq] at hcond
  intro hk
  have hk' : s = n := hk
  exact hcond.2 (hk' ▸ h)

theorem addStds_lookup_std (c : List String) (a : List (String × Nat))
    (s : String) (hs : s ∈ stds) (h1 : s ∉ c) (h2 : dictLookup s a = none) :
    dictLookup s (addStds c a) = some (stdFd s) := by
  rw [addStds_eq, dictLookup_append_of_none s a _ h2]
  have hmem : s ∈ stds.filter (fun s => decide (dictLookup s a = none ∧ s ∉ c)) :=
    List.mem_filter.mpr ⟨hs, by simp [h2, h1]⟩
  have hnd : (stds.filter
      (fun s => decide (dictLookup s a = none ∧ s ∉ c))).Nodup :=
    List.Nodup.filter _ (by decide)
  exact dictLookup_map_pair stdFd s _ hnd hmem

theorem addStds_covers (c : List String) (a : List (String × Nat))
    (s : String) (hs : s ∈ stds) :
    s ∈ c ∨ (dictLookup s (addStds c a)).isSome = true := by
  by_cases h1 : s ∈ c
  · exact Or.inl h1
  · right
    by_cases h2 : dictLookup s a = none
    · rw [addStds_lookup_std c a s hs h1 h2]
      rfl
    · obtain ⟨v, hv⟩ := Option.ne_none_iff_exists'.mp h2
      rw [addStds_eq, dictLookup_append_of_some s v a _ hv]
      rfl

theorem addStds_keys (c : List String) (a : List (String × Nat))
    (k : String) (hk : k ∈ (addStds c a).map Prod.fst) :
    k ∈ a.map Prod.fst ∨ k ∈ stds := by
  rw [addStds_eq, List.map_append] at hk
  rcases List.mem_append.mp hk with h | h
  · exact Or.inl h
  · right
    simp only [List.map_map, List.mem_map, Function.comp] at h
    obtain ⟨s, hs, rfl⟩ := h
    exact (List.mem_filter.mp hs).1

theorem addStds_keys_nodup (c : List String) (a : List (String × Nat))
    (h : (a.map Prod.fst).Nodup) : ((addStds c a).map Prod.fst).Nodup := by
  rw [addStds_eq, List.map_append]
  rw [List.nodup_append]
  refine ⟨h, ?_, ?_⟩
  · simp only [List.map_map, Function.comp]
    refine List.Nodup.map ?_ (List.Nodup.filter _ (by decide))
    intro x y hxy
    simpa using hxy
  · intro k hk hk'
    simp only [List.map_map, List.mem_map, Function.comp] at hk'
    obtain ⟨s, hs, rfl⟩ := hk'
    have hcond := (List.mem_filter.mp hs).2
    simp only [decide_eq_true_eq] at hcond
    exact absurd hk ((dictLookup_eq_none_iff s a).mp hcond.1)

theorem addStds_lookup_passphrase (c : List String)
    (a : List (String × Nat)) :
    dictLookup "passphrase" (addStds c a) = dictLookup "passphrase" a := by
  rw [addStds_eq]
  refine dictLookup_append_of_disjoint _ a _ ?_
  intro kv hkv
  simp only [List.mem_map, List.mem_filter] at hkv
  obtain ⟨s, ⟨hs, _⟩, rfl⟩ := hkv
  simp only [stds, List.mem_cons, List.not_mem_nil] at hs
  rcases hs with rfl | rfl | rfl | h
  · decide
  · decide
  · decide
  · exact absurd h (by simp)

/- Theorems: the pipe-creating loop. -/

theorem createPipes_ok (attach : List (String × Nat)) :
    ∀ (ns : List String) (proc : Process) (os : OS) (proc' : Process) (os' : OS),
      createPipes attach ns proc os = (.ok proc', os') →
      os'.nextFd = os.nextFd + 2 * ns.length ∧
      os'.openFds = os.openFds ++ allocFds ns.length os.nextFd ∧
      os'.pipeBudget = os.pipeBudget - ns.length ∧
      ns.length ≤ os.pipeBudget ∧
      os'.spawnOk = os.spawnOk ∧ os'.spawnCount = os.spawnCount ∧
      os'.nextPid = os.nextPid ∧
      (∀ n ∈ ns, dictLookup n attach = none) ∧
      proc'.handles = proc.handles ∧ proc'.pid = proc.pid ∧
      proc'.subprocCommand = proc.subprocCommand ∧
      proc'.spawnStdio = proc.spawnStdio ∧
      (ns.Nodup → (∀ n ∈ ns, dictLookup n proc.pipes = none) →
        proc'.pipes = proc.pipes ++ createdList ns os.nextFd)
  | [], proc, os, proc', os', h => by
    simp only [createPipes, Prod.mk.injEq, Except.ok.injEq] at h
    obtain ⟨h1, h2⟩ := h
    subst h1; subst h2
    simp [allocFds, createdList]
  | n :: rest, proc, os, proc', os', h => by
    simp only [createPipes] at h
    by_cases hc : (dictLookup n attach).isSome = true
    · rw [if_pos hc] at h
      simp at h
    · rw [if_neg hc] at h
      by_cases hb : os.pipeBudget = 0
      · simp [os_pipe, hb] at h
      · simp only [os_pipe, if_neg hb] at h
        have ih := createPipes_ok attach rest _ _ _ _ h
        obtain ⟨i1, i2, i3, i4, i5, i6, i7, i8, i9, i10, i11, i12, i13⟩ := ih
        simp only [List.length_cons]
        refine ⟨by simp at i1; omega, ?_, by simp at i3; omega,
          by simp at i4; omega, by simpa using i5, by simpa using i6,
          by simpa using i7, ?_, by simpa using i9, by simpa using i10,
          by simpa using i11, by simpa using i12, ?_⟩
        · rw [i2]
          simp [allocFds, List.append_assoc]
        · intro m hm
          rcases List.mem_cons.mp hm with rfl | hm
          · exact Option.not_isSome_iff_eq_none.mp hc
          · exact i8 m hm
        · intro hnd hfresh
          simp only [List.nodup_cons] at hnd
          have hfreshn : dictLookup n proc.pipes = none :=
            hfresh n (List.mem_cons_self _ _)
          have hrest : ∀ m ∈ rest,
              dictLookup m (dictInsert n
                (if dictLookup n fd_modes = some 'w'
                 then Pipe.mk (os.nextFd + 1) os.nextFd false
                 else Pipe.mk os.nextFd (os.nextFd + 1) false) proc.pipes) = none := by
            intro m hm
            rw [dictLookup_dictInsert_ne m n _ (fun he => hnd.1 (he ▸ hm))]
            exact hfresh m (List.mem_cons_of_mem _ hm)
          have := i13 hnd.2 (by simpa using hrest)
          rw [this]
          simp only [createdList]
          rw [dictInsert_of_none n _ proc.pipes hfreshn]
          simp [List.append_assoc]

theorem createPipes_error (attach : List (String × Nat)) :
    ∀ (ns : List String) (proc : Process) (os : OS) (e : GErr) (os' : OS),
      createPipes attach ns proc os = (.error e, os') →
      ((∃ n ∈ ns, e = .valueError n ∧ (dictLookup n attach).isSome = true) ∨
        e = .pipeAllocationFailed) ∧
      (∃ t, os'.openFds = os.openFds ++ t ∧
        t.length = 2 * (os.pipeBudget - os'.pipeBudget)) ∧
      os'.pipeBudget ≤ os.pipeBudget ∧
      os'.spawnOk = os.spawnOk ∧ os'.spawnCount = os.spawnCount ∧
      os'.nextPid = os.nextPid
  | [], proc, os, e, os', h => by
    simp [createPipes] at h
  | n :: rest, proc, os, e, os', h => by
    simp only [createPipes] at h
    by_cases hc : (dictLookup n attach).isSome = true
    · rw [if_pos hc] at h
      simp only [Prod.mk.injEq, Except.error.injEq] at h
      obtain ⟨h1, h2⟩ := h
      subst h2
      refine ⟨Or.inl ⟨n, List.mem_cons_self _ _, h1.symm, hc⟩,
        ⟨[], by simp, by simp⟩, le_refl _, rfl, rfl, rfl⟩
    · rw [if_neg hc] at h
      by_cases hb : os.pipeBudget = 0
      · simp only [os_pipe, if_pos hb, Prod.mk.injEq, Except.error.injEq] at h
        obtain ⟨h1, h2⟩ := h
        subst h2
        exact ⟨Or.inr h1.symm, ⟨[], by simp, by simp⟩, le_refl _, rfl, rfl, rfl⟩
      · simp only [os_pipe, if_neg hb] at h
        have ih := createPipes_error attach rest _ _ _ _ h
        obtain ⟨i1, ⟨t, ht1, ht2⟩, i3, i4, i5, i6⟩ := ih
        dsimp only at ht1 ht2 i3 i4 i5 i6
        refine ⟨?_, ⟨[os.nextFd, os.nextFd + 1] ++ t, ?_, ?_⟩,
          by omega, i4, i5, i6⟩
        · rcases i1 with ⟨m, hm, he⟩ | he
          · exact Or.inl ⟨m, List.mem_cons_of_mem _ hm, he⟩
          · exact Or.inr he
        · rw [ht1]
          simp [List.append_assoc]
        · simp only [List.length_append, ht2]
          simp
          omega

theorem createPipes_conflict (attach : List (String × Nat)) :
    ∀ (ns : List String) (proc : Process) (os : OS),
      (∃ n ∈ ns, (dictLookup n attach).isSome = true) →
      (ns.takeWhile (fun n => (dictLookup n attach).isNone)).length ≤
        os.pipeBudget →
      ∃ c os', createPipes attach ns proc os = (.error (.valueError c), os') ∧
        (dictLookup c attach).isSome = true ∧ c ∈ ns ∧
        os'.openFds = os.openFds ++ allocFds
          (ns.takeWhile (fun n => (dictLookup n attach).isNone)).length
          os.nextFd
  | [], proc, os, hconf, _ => by simp at hconf
  | n :: rest, proc, os, hconf, hbudget => by
    by_cases hc : (dictLookup n attach).isSome = true
    · refine ⟨n, os, ?_, hc, List.mem_cons_self _ _, ?_⟩
      · simp [createPipes, hc]
      · have : (n :: rest).takeWhile
            (fun n => (dictLookup n attach).isNone) = [] := by
          simp [List.takeWhile_cons, Option.isNone_iff_eq_none,
            Option.not_isSome_iff_eq_none, hc]
          intro hnone
          rw [hnone] at hc
          simp at hc
        simp [this, allocFds]
    · have hnone : dictLookup n attach = none :=
        Option.not_isSome_iff_eq_none.mp hc
      have htw : (n :: rest).takeWhile
          (fun n => (dictLookup n attach).isNone) =
          n :: rest.takeWhile (fun n => (dictLookup n attach).isNone) := by
        simp [List.takeWhile_cons, hnone]
      rw [htw] at hbudget
      simp only [List.length_cons] at hbudget
      have hb : ¬os.pipeBudget = 0 := by omega
      have hconf' : ∃ m ∈ rest, (dictLookup m attach).isSome = true := by
        obtain ⟨m, hm, hms⟩ := hconf
        rcases List.mem_cons.mp hm with rfl | hm
        · rw [hnone] at hms
          simp at hms
        · exact ⟨m, hm, hms⟩
      obtain ⟨c, os', hrun, hcs, hcm, hfds⟩ :=
        createPipes_conflict attach rest
          { proc with pipes := dictInsert n
                        (if dictLookup n fd_modes = some 'w'
                         then Pipe.mk (os.nextFd + 1) os.nextFd false
                         else Pipe.mk os.nextFd (os.nextFd + 1) false)
                        proc.pipes }
          { os with nextFd := os.nextFd + 2,
                    openFds := os.openFds ++ [os.nextFd, os.nextFd + 1],
                    pipeBudget := os.pipeBudget - 1 }
          hconf' (by simp; omega)
      refine ⟨c, os', ?_, hcs, List.mem_cons_of_mem _ hcm, ?_⟩
      · simp only [createPipes, if_neg hc, os_pipe, if_neg hb]
        exact hrun
      · rw [hfds, htw]
        simp [allocFds, List.append_assoc]

theorem createPipes_ok_of (attach : List (String × Nat)) :
    ∀ (ns : List String) (proc : Process) (os : OS),
      (∀ n ∈ ns, dictLookup n attach = none) →
      ns.length ≤ os.pipeBudget →
      ∃ proc' os', createPipes attach ns proc os = (.ok proc', os')
  | [], proc, os, _, _ => ⟨proc, os, rfl⟩
  | n :: rest, proc, os, hdisj, hbudget => by
    have hc : ¬(dictLookup n attach).isSome = true := by
      rw [hdisj n (List.mem_cons_self _ _)]
      simp
    have hb : ¬os.pipeBudget = 0 := by
      simp only [List.length_cons] at hbudget
      omega
    obtain ⟨proc', os', hrun⟩ := createPipes_ok_of attach rest
      { proc with pipes := dictInsert n
                    (if dictLookup n fd_modes = some 'w'
                     then Pipe.mk (os.nextFd + 1) os.nextFd false
                     else Pipe.mk os.nextFd (os.nextFd + 1) false)
                    proc.pipes }
      { os with nextFd := os.nextFd + 2,
                openFds := os.openFds ++ [os.nextFd, os.nextFd + 1],
                pipeBudget := os.pipeBudget - 1 }
      (fun m hm => hdisj m (List.mem_cons_of_mem _ hm))
      (by simp only [List.length_cons] at hbudget; simp; omega)
    refine ⟨proc', os', ?_⟩
    simp only [createPipes, if_neg hc, os_pipe, if_neg hb]
    exact hrun

theorem createPipes_ok_lookup (attach : List (String × Nat)) :
    ∀ (ns : List String) (proc : Process) (os : OS) (proc' : Process) (os' : OS),
      createPipes attach ns proc os = (.ok proc', os') →
      ∀ n : String,
        (n ∈ ns ∨ ∃ p, dictLookup n proc.pipes = some p ∧ p.direct = false) →
        ∃ p, dictLookup n proc'.pipes = some p ∧ p.direct = false
  | [], proc, os, proc', os', h, n, hn => by
    simp only [createPipes, Prod.mk.injEq, Except.ok.injEq] at h
    obtain ⟨h1, _⟩ := h
    subst h1
    rcases hn with hn | hn
    · simp at hn
    · exact hn
  | m :: rest, proc, os, proc', os', h, n, hn => by
    simp only [createPipes] at h
    by_cases hc : (dictLookup m attach).isSome = true
    · rw [if_pos hc] at h
      simp at h
    · rw [if_neg hc] at h
      by_cases hb : os.pipeBudget = 0
      · simp [os_pipe, hb] at h
      · simp only [os_pipe, if_neg hb] at h
        refine createPipes_ok_lookup attach rest _ _ _ _ h n ?_
        have hdir : (if dictLookup m fd_modes = some 'w'
            then Pipe.mk (os.nextFd + 1) os.nextFd false
            else Pipe.mk os.nextFd (os.nextFd + 1) false).direct = false := by
          by_cases hw : dictLookup m fd_modes = some 'w' <;> simp [hw]
        rcases hn with hn | ⟨p, hp, hpd⟩
        · rcases List.mem_cons.mp hn with rfl | hn
          · right
            refine ⟨_, ?_, hdir⟩
            simp [dictLookup_dictInsert_self]
          · exact Or.inl hn
        · by_cases hnm : m = n
          · subst hnm
            right
            refine ⟨_, ?_, hdir⟩
            simp [dictLookup_dictInsert_self]
          · right
            refine ⟨p, ?_, hpd⟩
            simp only [dictLookup_dictInsert_ne n m _ hnm]
            exact hp

theorem createPipes_keys (attach : List (String × Nat)) :
    ∀ (ns : List String) (proc : Process) (os : OS) (proc' : Process) (os' : OS),
      createPipes attach ns proc os = (.ok proc', os') →
      ∀ k ∈ proc'.pipes.map Prod.fst, k ∈ proc.pipes.map Prod.fst ∨ k ∈ ns
  | [], proc, os, proc', os', h, k, hk => by
    simp only [createPipes, Prod.mk.injEq, Except.ok.injEq] at h
    obtain ⟨h1, _⟩ := h
    subst h1
    exact Or.inl hk
  | m :: rest, proc, os, proc', os', h, k, hk => by
    simp only [createPipes] at h
    by_cases hc : (dictLookup m attach).isSome = true
    · rw [if_pos hc] at h
      simp at h
    · rw [if_neg hc] at h
      by_cases hb : os.pipeBudget = 0
      · simp [os_pipe, hb] at h
      · simp only [os_pipe, if_neg hb] at h
        rcases createPipes_keys attach rest _ _ _ _ h k hk with hkk | hkk
        · rcases mem_keys_dictInsert m k _ proc.pipes hkk with rfl | hkk
          · exact Or.inr (List.mem_cons_self _ _)
          · exact Or.inl hkk
        · exact Or.inr (List.mem_cons_of_mem _ hkk)

/- Theorems: the attach loop. -/

theorem attachPipes_cons (kv : String × Nat) (rest : List (String × Nat))
    (proc : Process) :
    attachPipes (kv :: rest) proc =
      attachPipes rest
        { proc with pipes := dictInsert kv.1 (Pipe.mk kv.2 kv.2 true) proc.pipes } :=
  rfl

theorem attachPipes_fields :
    ∀ (a : List (String × Nat)) (proc : Process),
      (attachPipes a proc).handles = proc.handles ∧
      (attachPipes a proc).pid = proc.pid ∧
      (attachPipes a proc).subprocCommand = proc.subprocCommand ∧
      (attachPipes a proc).spawnStdio = proc.spawnStdio
  | [], proc => ⟨rfl, rfl, rfl, rfl⟩
  | kv :: rest, proc => by
    simp only [attachPipes, List.foldl_cons]
    exact attachPipes_fields rest _

theorem attachPipes_pipes_eq :
    ∀ (a : List (String × Nat)) (proc : Process),
      (∀ kv ∈ a, dictLookup kv.1 proc.pipes = none) →
      (a.map Prod.fst).Nodup →
      (attachPipes a proc).pipes =
        proc.pipes ++ a.map (fun kv => (kv.1, Pipe.mk kv.2 kv.2 true))
  | [], proc, _, _ => by simp [attachPipes]
  | (k, fd) :: rest, proc, hdisj, hnd => by
    simp only [List.map_cons, List.nodup_cons] at hnd
    rw [attachPipes_cons]
    dsimp only
    have hfresh : dictLookup k proc.pipes = none :=
      hdisj (k, fd) (List.mem_cons_self _ _)
    have hstep : dictInsert k (Pipe.mk fd fd true) proc.pipes =
        proc.pipes ++ [(k, Pipe.mk fd fd true)] :=
      dictInsert_of_none _ _ _ hfresh
    rw [hstep]
    have hdisj' : ∀ kv ∈ rest,
        dictLookup kv.1 (proc.pipes ++ [(k, Pipe.mk fd fd true)]) = none := by
      intro kv hkv
      rw [dictLookup_append_of_none _ _ _ (hdisj kv (List.mem_cons_of_mem _ hkv))]
      have hne : k ≠ kv.1 := by
        intro he
        exact hnd.1 (he ▸ List.mem_map_of_mem Prod.fst hkv)
      simp [dictLookup, hne]
    have := attachPipes_pipes_eq rest
      { proc with pipes := proc.pipes ++ [(k, Pipe.mk fd fd true)] }
      (by simpa using hdisj') hnd.2
    rw [this]
    simp [List.append_assoc]

theorem attachPipes_lookup_not_mem (k : String) :
    ∀ (a : List (String × Nat)) (proc : Process), k ∉ a.map Prod.fst →
      dictLookup k (attachPipes a proc).pipes = dictLookup k proc.pipes
  | [], proc, _ => rfl
  | (k0, fd) :: rest, proc, hk => by
    simp only [List.map_cons, List.mem_cons, not_or] at hk
    rw [attachPipes_cons]
    dsimp only
    rw [attachPipes_lookup_not_mem k rest _ hk.2]
    exact dictLookup_dictInsert_ne k k0 _ (fun h => hk.1 h.symm) proc.pipes

theorem attachPipes_lookup_mem :
    ∀ (a : List (String × Nat)) (proc : Process) (k : String) (fd : Nat),
      (a.map Prod.fst).Nodup → (k, fd) ∈ a →
      dictLookup k (attachPipes a proc).pipes = some (Pipe.mk fd fd true)
  | [], _, _, _, _, hm => by simp at hm
  | (k0, fd0) :: rest, proc, k, fd, hnd, hm => by
    simp only [List.map_cons, List.nodup_cons] at hnd
    rw [attachPipes_cons]
    dsimp only
    rcases List.mem_cons.mp hm with heq | hm
    · simp only [Prod.mk.injEq] at heq
      obtain ⟨rfl, rfl⟩ := heq
      rw [attachPipes_lookup_not_mem k rest _ hnd.1]
      simp [dictLookup_dictInsert_self]
    · exact attachPipes_lookup_mem rest _ k fd hnd.2 hm

theorem attachPipes_keys :
    ∀ (a : List (String × Nat)) (proc : Process) (k : String),
      k ∈ (attachPipes a proc).pipes.map Prod.fst →
      k ∈ proc.pipes.map Prod.fst ∨ k ∈ a.map Prod.fst
  | [], proc, k, hk => Or.inl hk
  | (k0, fd0) :: rest, proc, k, hk => by
    rw [attachPipes_cons] at hk
    rcases attachPipes_keys rest _ k hk with hkk | hkk
    · rcases mem_keys_dictInsert k0 k _ proc.pipes hkk with rfl | hkk
      · exact Or.inr (by simp)
      · exact Or.inl hkk
    · exact Or.inr (by simp [hkk])

theorem attachPipes_lookup_isSome :
    ∀ (a : List (String × Nat)) (proc : Process) (k : String),
      (k ∈ a.map Prod.fst ∨ (dictLookup k proc.pipes).isSome = true) →
      (dictLookup k (attachPipes a proc).pipes).isSome = true
  | [], proc, k, hk => by
    rcases hk with hk | hk
    · simp at hk
    · exact hk
  | (k0, fd0) :: rest, proc, k, hk => by
    rw [attachPipes_cons]
    refine attachPipes_lookup_isSome rest _ k ?_
    rcases hk with hk | hk
    · simp only [List.map_cons, List.mem_cons] at hk
      rcases hk with heq | hkk
      · right
        subst heq
        simp [dictLookup_dictInsert_self]
      · exact Or.inl hkk
    · right
      exact dictLookup_isSome_dictInsert k k0 _ proc.pipes hk

/- Theorems: the descriptor-flag argument loop. -/

theorem fdArgs_all_std :
    ∀ l : List (String × Pipe), (∀ kp ∈ l, kp.1 ∈ stds) → fdArgs l = .ok []
  | [], _ => rfl
  | (k, p) :: rest, h => by
    have hk : k ∈ stds := h (k, p) (List.mem_cons_self _ _)
    simp only [fdArgs, if_pos hk]
    exact fdArgs_all_std rest (fun kp hkp => h kp (List.mem_cons_of_mem _ hkp))

theorem fdArgs_ok_join :
    ∀ (l : List (String × Pipe)) (fa : List String), fdArgs l = .ok fa →
      fa = ((l.filter (fun kp => decide (kp.1 ∉ stds))).map
        (fun kp => [(dictLookup kp.1 fd_options).getD "",
          toString kp.2.child])).flatten
  | [], fa, h => by
    simp only [fdArgs, Except.ok.injEq] at h
    simp [← h]
  | (k, p) :: rest, fa, h => by
    by_cases hk : k ∈ stds
    · simp only [fdArgs, if_pos hk] at h
      rw [fdArgs_ok_join rest fa h]
      simp [List.filter_cons, hk]
    · simp only [fdArgs, if_neg hk] at h
      cases hopt : dictLookup k fd_options with
      | none => rw [hopt] at h; simp at h
      | some flag =>
        rw [hopt] at h
        cases hrest : fdArgs rest with
        | error e => rw [hrest] at h; simp [Except.map] at h
        | ok tail =>
          rw [hrest] at h
          simp only [Except.map, Except.ok.injEq] at h
          rw [← h, fdArgs_ok_join rest tail hrest]
          simp [List.filter_cons, hk, hopt]

theorem fdArgs_error_shape :
    ∀ (l : List (String × Pipe)) (e : GErr), fdArgs l = .error e →
      ∃ k, e = .keyError k
  | [], e, h => by simp [fdArgs] at h
  | (k, p) :: rest, e, h => by
    by_cases hk : k ∈ stds
    · simp only [fdArgs, if_pos hk] at h
      exact fdArgs_error_shape rest e h
    · simp only [fdArgs, if_neg hk] at h
      cases hopt : dictLookup k fd_options with
      | none =>
        rw [hopt] at h
        simp only [Except.error.injEq] at h
        exact ⟨k, h.symm⟩
      | some flag =>
        rw [hopt] at h
        cases hrest : fdArgs rest with
        | error e0 =>
          rw [hrest] at h
          simp only [Except.map, Except.error.injEq] at h
          subst h
          exact fdArgs_error_shape rest e0 hrest
        | ok tail =>
          rw [hrest] at h
          simp [Except.map] at h

/- Theorems: the launcher. -/

theorem launch_process_ok (g : GnuPG) (cmds args : List String)
    (proc : Process) (os : OS) (proc' : Process) (os' : OS)
    (h : launch_process g cmds args proc os = (.ok proc', os')) :
    ∃ fa pin pout perr,
      fdArgs proc.pipes = .ok fa ∧ fa ≠ [] ∧ os.spawnOk = true ∧
      dictLookup "stdin" proc.pipes = some pin ∧
      dictLookup "stdout" proc.pipes = some pout ∧
      dictLookup "stderr" proc.pipes = some perr ∧
      proc' = { proc with
                  pid := some os.nextPid,
                  subprocCommand := some ([g.call] ++ fa ++
                    g.options.get_args ++ cmds ++ args),
                  spawnStdio := some (pin.child, pout.child, perr.child) } ∧
      os' = { os with spawnCount := os.spawnCount + 1,
                      nextPid := os.nextPid + 1 } := by
  simp only [launch_process] at h
  cases hfa : fdArgs proc.pipes with
  | error e => simp [hfa] at h
  | ok fa =>
    simp only [hfa] at h
    cases hin : dictLookup "stdin" proc.pipes with
    | none => simp [hin] at h
    | some pin =>
      simp only [hin] at h
      cases hout : dictLookup "stdout" proc.pipes with
      | none => simp [hout] at h
      | some pout =>
        simp only [hout] at h
        cases herr : dictLookup "stderr" proc.pipes with
        | none => simp [herr] at h
        | some perr =>
          simp only [herr] at h
          by_cases hlen : fa.length = 0
          · rw [if_pos hlen] at h
            simp at h
          · rw [if_neg hlen] at h
            by_cases hspawn : os.spawnOk = true
            · rw [if_pos hspawn] at h
              simp only [Prod.mk.injEq, Except.ok.injEq] at h
              refine ⟨fa, pin, pout, perr, rfl,
                fun hnil => hlen (by simp [hnil]), hspawn, rfl, rfl, rfl,
                h.1.symm, h.2.symm⟩
            · rw [if_neg hspawn] at h
              simp at h

theorem launch_process_error (g : GnuPG) (cmds args : List String)
    (proc : Process) (os : OS) (e : GErr) (os' : OS)
    (h : launch_process g cmds args proc os = (.error e, os')) :
    os' = os ∧
    ((∃ k, e = .keyError k) ∨ e = .unboundLocal "preexec_fn" ∨
      e = .spawnFailed) := by
  simp only [launch_process] at h
  cases hfa : fdArgs proc.pipes with
  | error e0 =>
    simp only [hfa, Prod.mk.injEq, Except.error.injEq] at h
    obtain ⟨h1, h2⟩ := h
    subst h1
    refine ⟨h2.symm, ?_⟩
    have := fdArgs_error_shape proc.pipes e0 hfa
    exact Or.inl this
  | ok fa =>
    simp only [hfa] at h
    cases hin : dictLookup "stdin" proc.pipes with
    | none =>
      simp only [hin, Prod.mk.injEq, Except.error.injEq] at h
      exact ⟨h.2.symm, Or.inl ⟨"stdin", h.1.symm⟩⟩
    | some pin =>
      simp only [hin] at h
      cases hout : dictLookup "stdout" proc.pipes with
      | none =>
        simp only [hout, Prod.mk.injEq, Except.error.injEq] at h
        exact ⟨h.2.symm, Or.inl ⟨"stdout", h.1.symm⟩⟩
      | some pout =>
        simp only [hout] at h
        cases herr : dictLookup "stderr" proc.pipes with
        | none =>
          simp only [herr, Prod.mk.injEq, Except.error.injEq] at h
          exact ⟨h.2.symm, Or.inl ⟨"stderr", h.1.symm⟩⟩
        | some perr =>
          simp only [herr] at h
          by_cases hlen : fa.length = 0
          · rw [if_pos hlen] at h
            simp only [Prod.mk.injEq, Except.error.injEq] at h
            exact ⟨h.2.symm, Or.inr (Or.inl h.1.symm)⟩
          · rw [if_neg hlen] at h
            by_cases hspawn : os.spawnOk = true
            · rw [if_pos hspawn] at h
              simp at h
            · rw [if_neg hspawn] at h
              simp only [Prod.mk.injEq, Except.error.injEq] at h
              exact ⟨h.2.symm, Or.inr (Or.inr h.1.symm)⟩

/- Theorems: post-spawn pipe handling. -/

theorem handle_pipesAux_spec :
    ∀ (l : List (String × Pipe)) (proc : Process) (os : OS),
      (∀ kp ∈ l, kp.2.direct = false →
        (dictLookup kp.1 fd_modes).isSome = true) →
      (∀ kp ∈ l, kp.2.direct = false →
        dictLookup kp.1 proc.handles = none) →
      ((l.filter (fun kp => !kp.2.direct)).map Prod.fst).Nodup →
      handle_pipesAux l proc os =
        (.ok { proc with handles := proc.handles ++ wrapHandles l },
         closeChildren l os)
  | [], proc, os, _, _, _ => by
    simp [handle_pipesAux, wrapHandles, closeChildren]
  | (k, p) :: rest, proc, os, hvalid, hfresh, hnd => by
    by_cases hd : p.direct
    · have hw : wrapHandles ((k, p) :: rest) = wrapHandles rest := by
        simp [wrapHandles, hd]
      have hc : closeChildren ((k, p) :: rest) os = closeChildren rest os := by
        simp [closeChildren, hd]
      have hfil : ((k, p) :: rest).filter (fun kp => !kp.2.direct) =
          rest.filter (fun kp => !kp.2.direct) := by
        simp [List.filter_cons, hd]
      rw [hfil] at hnd
      simp only [handle_pipesAux, if_pos hd, hw, hc]
      exact handle_pipesAux_spec rest proc os
        (fun kp hkp => hvalid kp (List.mem_cons_of_mem _ hkp))
        (fun kp hkp => hfresh kp (List.mem_cons_of_mem _ hkp)) hnd
    · have hd' : p.direct = false := by simpa using hd
      obtain ⟨m, hm⟩ := Option.isSome_iff_exists.mp
        (hvalid (k, p) (List.mem_cons_self _ _) hd')
      have hfil : ((k, p) :: rest).filter (fun kp => !kp.2.direct) =
          (k, p) :: rest.filter (fun kp => !kp.2.direct) := by
        simp [List.filter_cons, hd']
      rw [hfil] at hnd
      simp only [List.map_cons, List.nodup_cons] at hnd
      have hfreshk : dictLookup k proc.handles = none :=
        hfresh (k, p) (List.mem_cons_self _ _) hd'
      simp only [handle_pipesAux, if_neg hd, hm]
      have hrec := handle_pipesAux_spec rest
        { proc with handles := dictInsert k (p.parent, m) proc.handles }
        (os_close p.child os)
        (fun kp hkp => hvalid kp (List.mem_cons_of_mem _ hkp))
        (by
          intro kp hkp hkpd
          dsimp only
          have hne : k ≠ kp.1 := by
            intro he
            exact hnd.1 (he ▸ List.mem_map_of_mem Prod.fst
              (List.mem_filter.mpr ⟨hkp, by simp [hkpd]⟩))
          rw [dictLookup_dictInsert_ne kp.1 k _ hne]
          exact hfresh kp (List.mem_cons_of_mem _ hkp) hkpd)
        hnd.2
      rw [hrec]
      have hw : wrapHandles ((k, p) :: rest) =
          (k, p.parent, m) :: wrapHandles rest := by
        simp [wrapHandles, hd', hm]
      have hc : closeChildren ((k, p) :: rest) os =
          closeChildren rest (os_close p.child os) := by
        simp [closeChildren, hd']
      rw [hw, hc]
      rw [dictInsert_of_none k _ proc.handles hfreshk]
      simp [List.append_assoc]

theorem handle_pipes_spec (proc : Process) (os : OS)
    (hvalid : ∀ kp ∈ proc.pipes, kp.2.direct = false →
      (dictLookup kp.1 fd_modes).isSome = true)
    (hfresh : ∀ kp ∈ proc.pipes, kp.2.direct = false →
      dictLookup kp.1 proc.handles = none)
    (hnd : ((proc.pipes.filter (fun kp => !kp.2.direct)).map Prod.fst).Nodup) :
    handle_pipes proc os =
      (.ok { proc with pipes := [],
                       handles := proc.handles ++ wrapHandles proc.pipes },
       closeChildren proc.pipes os) := by
  unfold handle_pipes
  rw [handle_pipesAux_spec proc.pipes proc os hvalid hfresh hnd]

theorem handle_pipesAux_error_shape :
    ∀ (l : List (String × Pipe)) (proc : Process) (os : OS) (e : GErr)
      (os' : OS), handle_pipesAux l proc os = (.error e, os') →
      ∃ k, e = .keyError k
  | [], proc, os, e, os', h => by simp [handle_pipesAux] at h
  | (k, p) :: rest, proc, os, e, os', h => by
    by_cases hd : p.direct
    · simp only [handle_pipesAux, if_pos hd] at h
      exact handle_pipesAux_error_shape rest _ _ _ _ h
    · simp only [handle_pipesAux, if_neg hd] at h
      cases hm : dictLookup k fd_modes with
      | none =>
        rw [hm] at h
        simp only [Prod.mk.injEq, Except.error.injEq] at h
        exact ⟨k, h.1.symm⟩
      | some m =>
        rw [hm] at h
        exact handle_pipesAux_error_shape rest _ _ _ _ h

theorem handle_pipesAux_isSome_preserved :
    ∀ (l : List (String × Pipe)) (proc : Process) (os : OS)
      (proc' : Process) (os' : OS),
      handle_pipesAux l proc os = (.ok proc', os') →
      ∀ n, (dictLookup n proc.handles).isSome = true →
        (dictLookup n proc'.handles).isSome = true
  | [], proc, os, proc', os', h, n, hn => by
    simp only [handle_pipesAux, Prod.mk.injEq, Except.ok.injEq] at h
    obtain ⟨h1, _⟩ := h
    subst h1
    exact hn
  | (k, p) :: rest, proc, os, proc', os', h, n, hn => by
    by_cases hd : p.direct
    · simp only [handle_pipesAux, if_pos hd] at h
      exact handle_pipesAux_isSome_preserved rest _ _ _ _ h n hn
    · simp only [handle_pipesAux, if_neg hd] at h
      cases hm : dictLookup k fd_modes with
      | none => rw [hm] at h; simp at h
      | some m =>
        rw [hm] at h
        refine handle_pipesAux_isSome_preserved rest _ _ _ _ h n ?_
        exact dictLookup_isSome_dictInsert n k _ proc.handles hn

theorem handle_pipesAux_lookup_of_pipe :
    ∀ (l : List (String × Pipe)) (proc : Process) (os : OS)
      (proc' : Process) (os' : OS),
      handle_pipesAux l proc os = (.ok proc', os') →
      ∀ (n : String) (p : Pipe), dictLookup n l = some p →
        p.direct = false → (dictLookup n proc'.handles).isSome = true
  | [], proc, os, proc', os', h, n, p, hp, hpd => by
    simp [dictLookup] at hp
  | (k, q) :: rest, proc, os, proc', os', h, n, p, hp, hpd => by
    by_cases hkn : k = n
    · subst hkn
      have hq : q = p := by simpa [dictLookup] using hp
      rw [← hq] at hpd
      have hqd : ¬q.direct = true := by simp [hpd]
      simp only [handle_pipesAux, if_neg hqd] at h
      cases hm : dictLookup k fd_modes with
      | none => rw [hm] at h; simp at h
      | some m =>
        rw [hm] at h
        refine handle_pipesAux_isSome_preserved rest _ _ _ _ h k ?_
        simp [dictLookup_dictInsert_self]
    · simp only [dictLookup, if_neg hkn] at hp
      by_cases hd : q.direct
      · simp only [handle_pipesAux, if_pos hd] at h
        exact handle_pipesAux_lookup_of_pipe rest _ _ _ _ h n p hp hpd
      · simp only [handle_pipesAux, if_neg hd] at h
        cases hm : dictLookup k fd_modes with
        | none => rw [hm] at h; simp at h
        | some m =>
          rw [hm] at h
          exact handle_pipesAux_lookup_of_pipe rest _ _ _ _ h n p hp hpd

theorem handle_pipesAux_nodup :
    ∀ (l : List (String × Pipe)) (proc : Process) (os : OS)
      (proc' : Process) (os' : OS),
      handle_pipesAux l proc os = (.ok proc', os') →
      (proc.handles.map Prod.fst).Nodup → (proc'.handles.map Prod.fst).Nodup
  | [], proc, os, proc', os', h, hnd => by
    simp only [handle_pipesAux, Prod.mk.injEq, Except.ok.injEq] at h
    obtain ⟨h1, _⟩ := h
    subst h1
    exact hnd
  | (k, p) :: rest, proc, os, proc', os', h, hnd => by
    by_cases hd : p.direct
    · simp only [handle_pipesAux, if_pos hd] at h
      exact handle_pipesAux_nodup rest _ _ _ _ h hnd
    · simp only [handle_pipesAux, if_neg hd] at h
      cases hm : dictLookup k fd_modes with
      | none => rw [hm] at h; simp at h
      | some m =>
        rw [hm] at h
        exact handle_pipesAux_nodup rest _ _ _ _ h
          (keys_nodup_dictInsert k _ proc.handles hnd)

theorem handle_pipes_ok_cases (proc : Process) (os : OS)
    (res : Except GErr Process) (os' : OS)
    (h : handle_pipes proc os = (res, os')) :
    (∃ proc₀ os₀, handle_pipesAux proc.pipes proc os = (.ok proc₀, os₀) ∧
      res = .ok { proc₀ with pipes := [] } ∧ os' = os₀) ∨
    (∃ e os₀, handle_pipesAux proc.pipes proc os = (.error e, os₀) ∧
      res = .error e ∧ os' = os₀) := by
  unfold handle_pipes at h
  cases haux : handle_pipesAux proc.pipes proc os with
  | mk r o =>
    cases r with
    | ok proc₀ =>
      rw [haux] at h
      simp only [Prod.mk.injEq] at h
      exact Or.inl ⟨proc₀, o, rfl, h.1.symm, h.2.symm⟩
    | error e =>
      rw [haux] at h
      simp only [Prod.mk.injEq] at h
      exact Or.inr ⟨e, o, rfl, h.1.symm, h.2.symm⟩

/- Theorems: structure of the created-pipe bookkeeping. -/

theorem createdList_keys :
    ∀ (ns : List String) (start : Nat),
      (createdList ns start).map Prod.fst = ns
  | [], _ => rfl
  | n :: rest, start => by
    simp only [createdList, List.map_cons]
    rw [createdList_keys rest (start + 2)]

theorem createdList_nondirect :
    ∀ (ns : List String) (start : Nat) (kp : String × Pipe),
      kp ∈ createdList ns start → kp.2.direct = false
  | [], _, kp, h => by simp [createdList] at h
  | n :: rest, start, kp, h => by
    simp only [createdList, List.mem_cons] at h
    rcases h with rfl | h
    · by_cases hw : dictLookup n fd_modes = some 'w' <;> simp [hw]
    · exact createdList_nondirect rest (start + 2) kp h

theorem createdList_lookup_none (n : String) :
    ∀ (ns : List String) (start : Nat), n ∉ ns →
      dictLookup n (createdList ns start) = none := by
  intro ns start h
  rw [dictLookup_eq_none_iff, createdList_keys]
  exact h

theorem createdList_fd_range :
    ∀ (ns : List String) (start : Nat) (kp : String × Pipe),
      kp ∈ createdList ns start →
      start ≤ kp.2.parent ∧ start ≤ kp.2.child
  | [], _, kp, h => by simp [createdList] at h
  | n :: rest, start, kp, h => by
    simp only [createdList, List.mem_cons] at h
    rcases h with rfl | h
    · by_cases hw : dictLookup n fd_modes = some 'w' <;> simp [hw]
    · have := createdList_fd_range rest (start + 2) kp h
      omega

theorem childFds_createdList_ge (ns : List String) (start : Nat) (c : Nat)
    (hc : c ∈ childFds (createdList ns start)) : start ≤ c := by
  simp only [childFds, List.mem_map, List.mem_filter] at hc
  obtain ⟨kp, ⟨hkp, _⟩, rfl⟩ := hc
  exact (createdList_fd_range ns start kp hkp).2

theorem allocFds_length :
    ∀ (k start : Nat), (allocFds k start).length = 2 * k
  | 0, _ => rfl
  | k + 1, start => by
    simp only [allocFds, List.length_cons]
    rw [allocFds_length k (start + 2)]
    omega

theorem allocFds_ge :
    ∀ (k start f : Nat), f ∈ allocFds k start → start ≤ f
  | 0, _, f, h => by simp [allocFds] at h
  | k + 1, start, f, h => by
    simp only [allocFds, List.mem_cons] at h
    rcases h with rfl | rfl | h
    · omega
    · omega
    · have := allocFds_ge k (start + 2) f h
      omega

theorem wrapHandles_append :
    ∀ l1 l2 : List (String × Pipe),
      wrapHandles (l1 ++ l2) = wrapHandles l1 ++ wrapHandles l2
  | [], l2 => rfl
  | (k, p) :: rest, l2 => by
    by_cases hd : p.direct
    · simp only [List.cons_append, wrapHandles, if_pos hd]
      exact wrapHandles_append rest l2
    · simp only [List.cons_append, wrapHandles, if_neg hd]
      cases hm : dictLookup k fd_modes with
      | none => exact wrapHandles_append rest l2
      | some m => exact congrArg _ (wrapHandles_append rest l2)

theorem wrapHandles_all_direct :
    ∀ l : List (String × Pipe), (∀ kp ∈ l, kp.2.direct = true) →
      wrapHandles l = []
  | [], _ => rfl
  | (k, p) :: rest, h => by
    have hd : p.direct = true := h (k, p) (List.mem_cons_self _ _)
    simp only [wrapHandles, if_pos hd]
    exact wrapHandles_all_direct rest
      (fun kp hkp => h kp (List.mem_cons_of_mem _ hkp))

theorem wrapHandles_mode :
    ∀ (l : List (String × Pipe)) (e : String × Nat × Char),
      e ∈ wrapHandles l → dictLookup e.1 fd_modes = some e.2.2
  | [], e, h => by simp [wrapHandles] at h
  | (k, p) :: rest, e, h => by
    by_cases hd : p.direct
    · simp only [wrapHandles, if_pos hd] at h
      exact wrapHandles_mode rest e h
    · simp only [wrapHandles, if_neg hd] at h
      cases hm : dictLookup k fd_modes with
      | none =>
        rw [hm] at h
        exact wrapHandles_mode rest e h
      | some m =>
        rw [hm] at h
        rcases List.mem_cons.mp h with rfl | h
        · exact hm
        · exact wrapHandles_mode rest e h

theorem wrapHandles_createdList_cons (n : String) (rest : List String)
    (start : Nat) (m : Char) (hm : dictLookup n fd_modes = some m) :
    wrapHandles (createdList (n :: rest) start) =
      (n, (if dictLookup n fd_modes = some 'w' then start + 1 else start), m) ::
        wrapHandles (createdList rest (start + 2)) := by
  by_cases hw : dictLookup n fd_modes = some 'w'
  · have hmw : m = 'w' := by
      rw [hw] at hm
      simpa using hm.symm
    subst hmw
    simp [createdList, wrapHandles, hw]
  · have hmw : m ≠ 'w' := by
      intro he
      exact hw (he ▸ hm)
    simp [createdList, wrapHandles, hw, hm, hmw]

theorem wrapHandles_createdList_cons_none (n : String) (rest : List String)
    (start : Nat) (hm : dictLookup n fd_modes = none) :
    wrapHandles (createdList (n :: rest) start) =
      wrapHandles (createdList rest (start + 2)) := by
  by_cases hw : dictLookup n fd_modes = some 'w'
  · rw [hw] at hm
    simp at hm
  · simp [createdList, wrapHandles, hw, hm]

theorem wrapHandles_createdList_keys :
    ∀ (ns : List String) (start : Nat),
      (∀ n ∈ ns, (dictLookup n fd_modes).isSome = true) →
      (wrapHandles (createdList ns start)).map Prod.fst = ns
  | [], _, _ => rfl
  | n :: rest, start, hv => by
    obtain ⟨m, hm⟩ := Option.isSome_iff_exists.mp
      (hv n (List.mem_cons_self _ _))
    rw [wrapHandles_createdList_cons n rest start m hm, List.map_cons,
      wrapHandles_createdList_keys rest (start + 2)
        (fun x hx => hv x (List.mem_cons_of_mem _ hx))]

theorem wrapHandles_createdList_parent_ge :
    ∀ (ns : List String) (start : Nat) (e : String × Nat × Char),
      e ∈ wrapHandles (createdList ns start) → start ≤ e.2.1
  | [], _, e, h => by simp [createdList, wrapHandles] at h
  | n :: rest, start, e, h => by
    cases hm : dictLookup n fd_modes with
    | none =>
      rw [wrapHandles_createdList_cons_none n rest start hm] at h
      have := wrapHandles_createdList_parent_ge rest (start + 2) e h
      omega
    | some m =>
      rw [wrapHandles_createdList_cons n rest start m hm] at h
      rcases List.mem_cons.mp h with rfl | h
      · by_cases hw : dictLookup n fd_modes = some 'w' <;> simp [hw]
      · have := wrapHandles_createdList_parent_ge rest (start + 2) e h
        omega

theorem closeChildren_fields :
    ∀ (l : List (String × Pipe)) (os : OS),
      (closeChildren l os).nextFd = os.nextFd ∧
      (closeChildren l os).pipeBudget = os.pipeBudget ∧
      (closeChildren l os).spawnOk = os.spawnOk ∧
      (closeChildren l os).spawnCount = os.spawnCount ∧
      (closeChildren l os).nextPid = os.nextPid
  | [], os => ⟨rfl, rfl, rfl, rfl, rfl⟩
  | (k, p) :: rest, os => by
    by_cases hd : p.direct
    · simp only [closeChildren, if_pos hd]
      exact closeChildren_fields rest os
    · simp only [closeChildren, if_neg hd]
      have := closeChildren_fields rest (os_close p.child os)
      simpa [os_close] using this

theorem closeChildren_openFds :
    ∀ (l : List (String × Pipe)) (os : OS),
      (closeChildren l os).openFds =
        os.openFds.filter (fun f => decide (f ∉ childFds l))
  | [], os => by simp [closeChildren, childFds]
  | (k, p) :: rest, os => by
    by_cases hd : p.direct
    · simp only [closeChildren, if_pos hd]
      rw [closeChildren_openFds rest os]
      have hch : childFds ((k, p) :: rest) = childFds rest := by
        simp [childFds, List.filter_cons, hd]
      rw [hch]
    · simp only [closeChildren, if_neg hd]
      rw [closeChildren_openFds rest (os_close p.child os)]
      have hch : childFds ((k, p) :: rest) = p.child :: childFds rest := by
        simp [childFds, List.filter_cons, hd]
      rw [hch]
      simp only [os_close]
      rw [List.filter_filter]
      refine List.filter_congr ?_
      intro f hf
      simp only [List.mem_cons, not_or]
      rw [Bool.decide_and, Bool.and_comm]

theorem filter_allocFds :
    ∀ (ns : List String) (start : Nat),
      (∀ n ∈ ns, (dictLookup n fd_modes).isSome = true) →
      (allocFds ns.length start).filter
        (fun f => decide (f ∉ childFds (createdList ns start))) =
      (wrapHandles (createdList ns start)).map (fun e => e.2.1)
  | [], start, _ => by simp [allocFds, createdList, childFds, wrapHandles]
  | n :: rest, start, hv => by
    obtain ⟨m, hm⟩ := Option.isSome_iff_exists.mp
      (hv n (List.mem_cons_self _ _))
    have hvr : ∀ x ∈ rest, (dictLookup x fd_modes).isSome = true :=
      fun x hx => hv x (List.mem_cons_of_mem _ hx)
    have ih := filter_allocFds rest (start + 2) hvr
    have hC : ∀ c ∈ childFds (createdList rest (start + 2)), start + 2 ≤ c :=
      fun c hc => childFds_createdList_ge rest (start + 2) c hc
    rw [wrapHandles_createdList_cons n rest start m hm, List.map_cons]
    by_cases hw : dictLookup n fd_modes = some 'w'
    · rw [if_pos hw]
      have hch : childFds (createdList (n :: rest) start) =
          start :: childFds (createdList rest (start + 2)) := by
        simp [createdList, childFds, List.filter_cons, hw]
      rw [hch]
      have hps : (decide (start ∉
          start :: childFds (createdList rest (start + 2)))) = false := by
        simp
      have hps1 : (decide (start + 1 ∉
          start :: childFds (createdList rest (start + 2)))) = true := by
        simp only [decide_eq_true_eq, List.mem_cons, not_or]
        refine ⟨by omega, fun hmem => ?_⟩
        have := hC _ hmem
        omega
      have htail : (allocFds rest.length (start + 2)).filter
          (fun f => decide (f ∉
            start :: childFds (createdList rest (start + 2)))) =
          (allocFds rest.length (start + 2)).filter
          (fun f => decide (f ∉ childFds (createdList rest (start + 2)))) := by
        refine List.filter_congr ?_
        intro f hf
        have hge := allocFds_ge rest.length (start + 2) f hf
        simp only [List.mem_cons, not_or, decide_eq_decide]
        constructor
        · exact fun hand => hand.2
        · exact fun hmem => ⟨by omega, hmem⟩
      simp only [List.length_cons, allocFds, List.filter_cons, hps, hps1,
        htail, ih]
      simp
    · rw [if_neg hw]
      have hch : childFds (createdList (n :: rest) start) =
          (start + 1) :: childFds (createdList rest (start + 2)) := by
        simp [createdList, childFds, List.filter_cons, hw]
      rw [hch]
      have hps : (decide (start ∉
          (start + 1) :: childFds (createdList rest (start + 2)))) = true := by
        simp only [decide_eq_true_eq, List.mem_cons, not_or]
        refine ⟨by omega, fun hmem => ?_⟩
        have := hC _ hmem
        omega
      have hps1 : (decide (start + 1 ∉
          (start + 1) :: childFds (createdList rest (start + 2)))) = false := by
        simp
      have htail : (allocFds rest.length (start + 2)).filter
          (fun f => decide (f ∉
            (start + 1) :: childFds (createdList rest (start + 2)))) =
          (allocFds rest.length (start + 2)).filter
          (fun f => decide (f ∉ childFds (createdList rest (start + 2)))) := by
        refine List.filter_congr ?_
        intro f hf
        have hge := allocFds_ge rest.length (start + 2) f hf
        simp only [List.mem_cons, not_or, decide_eq_decide]
        constructor
        · exact fun hand => hand.2
        · exact fun hmem => ⟨by omega, hmem⟩
      simp only [List.length_cons, allocFds, List.filter_cons, hps, hps1,
        htail, ih]
      simp

theorem childFds_append (l1 l2 : List (String × Pipe)) :
    childFds (l1 ++ l2) = childFds l1 ++ childFds l2 := by
  simp [childFds, List.filter_append]

theorem childFds_all_direct (l : List (String × Pipe))
    (h : ∀ kp ∈ l, kp.2.direct = true) : childFds l = [] := by
  have : l.filter (fun kp => !kp.2.direct) = [] := by
    rw [List.filter_eq_nil_iff]
    intro kp hkp
    simp [h kp hkp]
  simp [childFds, this]

/- Theorems: master characterization of a successful `_attach_fork_exec`. -/

theorem attach_fork_exec_ok_spec (g : GnuPG) (cmds args : List String)
    (create : List String) (attach : List (String × Nat)) (os : OS)
    (proc' : Process) (os' : OS)
    (hndC : create.Nodup) (hndA : (attach.map Prod.fst).Nodup)
    (hwf : ∀ f ∈ os.openFds, f < os.nextFd)
    (h : attach_fork_exec g cmds args create attach os = (.ok proc', os')) :
    (∀ n ∈ create ++ attach.map Prod.fst,
      (dictLookup n fd_modes).isSome = true) ∧
    (∀ n ∈ create, dictLookup n attach = none) ∧
    proc'.pipes = [] ∧
    proc'.handles = wrapHandles (createdList create os.nextFd) ∧
    proc'.pid = some os.nextPid ∧
    (∃ fa, fdArgs (pipesAfterWiring create attach os.nextFd) = .ok fa ∧
      proc'.subprocCommand =
        some ([g.call] ++ fa ++ g.options.get_args ++ cmds ++ args)) ∧
    (∃ pin pout perr,
      dictLookup "stdin" (pipesAfterWiring create attach os.nextFd) = some pin ∧
      dictLookup "stdout" (pipesAfterWiring create attach os.nextFd) = some pout ∧
      dictLookup "stderr" (pipesAfterWiring create attach os.nextFd) = some perr ∧
      proc'.spawnStdio = some (pin.child, pout.child, perr.child)) ∧
    os'.nextFd = os.nextFd + 2 * create.length ∧
    os'.openFds = os.openFds ++
      (wrapHandles (createdList create os.nextFd)).map (fun e => e.2.1) ∧
    os'.pipeBudget = os.pipeBudget - create.length ∧
    os'.spawnOk = os.spawnOk ∧ os'.spawnCount = os.spawnCount + 1 ∧
    os'.nextPid = os.nextPid + 1 := by
  rw [attach_fork_exec] at h
  cases hcn : checkNames (create ++ attach.map Prod.fst) with
  | error e => simp [hcn] at h
  | ok u =>
    cases u
    simp only [hcn] at h
    have hvalid := checkNames_ok_mem _ hcn
    cases hcp : createPipes attach create Process.init os with
    | mk r1 os1 =>
      cases r1 with
      | error e => simp [hcp] at h
      | ok proc1 =>
        simp only [hcp] at h
        obtain ⟨i1, i2, i3, i4, i5, i6, i7, i8, i9, i10, i11, i12, i13⟩ :=
          createPipes_ok attach create Process.init os proc1 os1 hcp
        have hpipes1 : proc1.pipes = createdList create os.nextFd := by
          have := i13 hndC (fun n _ => rfl)
          simpa using this
        have hdisj2 : ∀ kv ∈ attach,
            dictLookup kv.1 (createdList create os.nextFd) = none := by
          intro kv hkv
          apply createdList_lookup_none
          intro hmem
          have hn := i8 kv.1 hmem
          rw [dictLookup_eq_none_iff] at hn
          exact hn (List.mem_map_of_mem Prod.fst hkv)
        have hpipes2 : (attachPipes attach proc1).pipes =
            pipesAfterWiring create attach os.nextFd := by
          rw [attachPipes_pipes_eq attach proc1
            (by rw [hpipes1]; exact hdisj2) hndA, hpipes1]
          rfl
        obtain ⟨f1, f2, f3, f4⟩ := attachPipes_fields attach proc1
        cases hlp : launch_process g cmds args (attachPipes attach proc1) os1 with
        | mk r2 os2 =>
          cases r2 with
          | error e => simp [hlp] at h
          | ok proc3 =>
            simp only [hlp] at h
            obtain ⟨fa, pin, pout, perr, hfa, hfane, hspawn, hin, hout, herr,
              hproc3, hos2⟩ := launch_process_ok g cmds args _ os1 proc3 os2 hlp
            have hpipes3 : proc3.pipes =
                pipesAfterWiring create attach os.nextFd := by
              rw [hproc3]
              exact hpipes2
            have hhandles3 : proc3.handles = [] := by
              rw [hproc3]
              show (attachPipes attach proc1).handles = []
              rw [f1, i9]
              rfl
            have hv3 : ∀ kp ∈ proc3.pipes, kp.2.direct = false →
                (dictLookup kp.1 fd_modes).isSome = true := by
              rw [hpipes3, pipesAfterWiring]
              intro kp hkp hkpd
              rcases List.mem_append.mp hkp with hkp | hkp
              · have hk : kp.1 ∈ create := by
                  have := List.mem_map_of_mem Prod.fst hkp
                  rwa [createdList_keys] at this
                exact hvalid kp.1 (List.mem_append.mpr (Or.inl hk))
              · exfalso
                simp only [List.mem_map] at hkp
                obtain ⟨kv, hkv, rfl⟩ := hkp
                simp at hkpd
            have hf3 : ∀ kp ∈ proc3.pipes, kp.2.direct = false →
                dictLookup kp.1 proc3.handles = none := by
              intro kp _ _
              rw [hhandles3]
              rfl
            have hfilterc : (createdList create os.nextFd).filter
                (fun kp => !kp.2.direct) = createdList create os.nextFd := by
              rw [List.filter_eq_self]
              intro kp hkp
              simp [createdList_nondirect create os.nextFd kp hkp]
            have hfiltera : ((attach.map
                (fun kv => (kv.1, Pipe.mk kv.2 kv.2 true))).filter
                (fun kp => !kp.2.direct)) = [] := by
              rw [List.filter_eq_nil_iff]
              intro kp hkp
              simp only [List.mem_map] at hkp
              obtain ⟨kv, hkv, rfl⟩ := hkp
              simp
            have hn3 : ((proc3.pipes.filter
                (fun kp => !kp.2.direct)).map Prod.fst).Nodup := by
              rw [hpipes3, pipesAfterWiring, List.filter_append, hfilterc,
                hfiltera, List.append_nil, createdList_keys]
              exact hndC
            rw [handle_pipes_spec proc3 os2 hv3 hf3 hn3] at h
            simp only [Prod.mk.injEq, Except.ok.injEq] at h
            obtain ⟨hp', hos'⟩ := h
            have hwrap : wrapHandles proc3.pipes =
                wrapHandles (createdList create os.nextFd) := by
              rw [hpipes3, pipesAfterWiring, wrapHandles_append,
                wrapHandles_all_direct
                  (attach.map (fun kv => (kv.1, Pipe.mk kv.2 kv.2 true))) (by
                  intro kp hkp
                  simp only [List.mem_map] at hkp
                  obtain ⟨kv, hkv, rfl⟩ := hkp
                  rfl), List.append_nil]
            have hchf : childFds proc3.pipes =
                childFds (createdList create os.nextFd) := by
              rw [hpipes3, pipesAfterWiring, childFds_append,
                childFds_all_direct
                  (attach.map (fun kv => (kv.1, Pipe.mk kv.2 kv.2 true))) (by
                  intro kp hkp
                  simp only [List.mem_map] at hkp
                  obtain ⟨kv, hkv, rfl⟩ := hkp
                  rfl), List.append_nil]
            obtain ⟨c1, c2, c3, c4, c5⟩ := closeChildren_fields proc3.pipes os2
            have hvc : ∀ n ∈ create, (dictLookup n fd_modes).isSome = true :=
              fun n hn => hvalid n (List.mem_append.mpr (Or.inl hn))
            refine ⟨hvalid, i8, ?_, ?_, ?_, ?_, ?_, ?_, ?_, ?_, ?_, ?_, ?_⟩
            · rw [← hp']
            · rw [← hp']
              show proc3.handles ++ wrapHandles proc3.pipes = _
              rw [hhandles3, hwrap]
              rfl
            · rw [← hp']
              show proc3.pid = _
              rw [hproc3]
              show some os1.nextPid = _
              rw [i7]
            · refine ⟨fa, ?_, ?_⟩
              · rw [← hpipes2]
                exact hfa
              · rw [← hp']
                show proc3.subprocCommand = _
                rw [hproc3]
            · refine ⟨pin, pout, perr, ?_, ?_, ?_, ?_⟩
              · rw [← hpipes2]
                exact hin
              · rw [← hpipes2]
                exact hout
              · rw [← hpipes2]
                exact herr
              · rw [← hp']
                show proc3.spawnStdio = _
                rw [hproc3]
            · rw [← hos', c1, hos2]
              show os1.nextFd = _
              rw [i1]
            · rw [← hos', closeChildren_openFds, hchf, hos2]
              show (os1.openFds.filter _) = _
              rw [i2, List.filter_append]
              have hleft : os.openFds.filter (fun f =>
                  decide (f ∉ childFds (createdList create os.nextFd))) =
                  os.openFds := by
                rw [List.filter_eq_self]
                intro f hf
                simp only [decide_eq_true_eq]
                intro hmem
                have := childFds_createdList_ge create os.nextFd f hmem
                have := hwf f hf
                omega
              rw [hleft, filter_allocFds create os.nextFd hvc]
            · rw [← hos', c2, hos2]
              show os1.pipeBudget = _
              rw [i3]
            · rw [← hos', c3, hos2]
              show os1.spawnOk = _
              rw [i5]
            · rw [← hos', c4, hos2]
              show os1.spawnCount + 1 = _
              rw [i6]
            · rw [← hos', c5, hos2]
              show os1.nextPid + 1 = _
              rw [i7]

/- Theorems: case decomposition of `GnuPG.run`. -/

theorem passTrigger_iff (g : GnuPG) (create : List String)
    (attach : List (String × Nat)) :
    passTrigger g create (addStds create attach) = true ↔
      (g.passphrase.isSome = true ∧ dictLookup "passphrase" attach = none ∧
        "passphrase" ∉ create) := by
  simp [passTrigger, addStds_lookup_passphrase, Option.isNone_iff_eq_none,
    and_assoc]

theorem run_eq_error_nopass (g : GnuPG) (cmds args : List String)
    (create : List String) (attach : List (String × Nat)) (os : OS)
    (e : GErr) (os1 : OS)
    (hp : passTrigger g create (addStds create attach) = false)
    (he : attach_fork_exec g cmds args create (addStds create attach) os =
      (.error e, os1)) :
    GnuPG.run g cmds args create attach os =
      ⟨.error e, os1, create, addStds create attach, []⟩ := by
  simp [GnuPG.run, hp, he]

theorem run_eq_error_pass (g : GnuPG) (cmds args : List String)
    (create : List String) (attach : List (String × Nat)) (os : OS)
    (e : GErr) (os1 : OS)
    (hp : passTrigger g create (addStds create attach) = true)
    (he : attach_fork_exec g cmds args (create ++ ["passphrase"])
      (addStds create attach) os = (.error e, os1)) :
    GnuPG.run g cmds args create attach os =
      ⟨.error e, os1, create ++ ["passphrase"], addStds create attach, []⟩ := by
  simp [GnuPG.run, hp, he]

theorem run_eq_ok_nopass (g : GnuPG) (cmds args : List String)
    (create : List String) (attach : List (String × Nat)) (os : OS)
    (proc : Process) (os1 : OS)
    (hp : passTrigger g create (addStds create attach) = false)
    (hok : attach_fork_exec g cmds args create (addStds create attach) os =
      (.ok proc, os1)) :
    GnuPG.run g cmds args create attach os =
      ⟨.ok proc, os1, create, addStds create attach, []⟩ := by
  simp [GnuPG.run, hp, hok]

theorem run_eq_ok_pass (g : GnuPG) (cmds args : List String)
    (create : List String) (attach : List (String × Nat)) (os : OS)
    (proc : Process) (os1 : OS) (fd : Nat) (mode : Char)
    (hp : passTrigger g create (addStds create attach) = true)
    (hok : attach_fork_exec g cmds args (create ++ ["passphrase"])
      (addStds create attach) os = (.ok proc, os1))
    (hl : dictLookup "passphrase" proc.handles = some (fd, mode)) :
    GnuPG.run g cmds args create attach os =
      ⟨.ok { proc with handles := dictErase "passphrase" proc.handles },
       os_close fd os1, create ++ ["passphrase"], addStds create attach,
       [Event.wrote fd (g.passphrase.getD ""), Event.closedHandle fd]⟩ := by
  simp [GnuPG.run, hp, hok, hl]

theorem run_eq_ok_pass_missing (g : GnuPG) (cmds args : List String)
    (create : List String) (attach : List (String × Nat)) (os : OS)
    (proc : Process) (os1 : OS)
    (hp : passTrigger g create (addStds create attach) = true)
    (hok : attach_fork_exec g cmds args (create ++ ["passphrase"])
      (addStds create attach) os = (.ok proc, os1))
    (hl : dictLookup "passphrase" proc.handles = none) :
    GnuPG.run g cmds args create attach os =
      ⟨.error (.keyError "passphrase"), os1, create ++ ["passphrase"],
       addStds create attach, []⟩ := by
  simp [GnuPG.run, hp, hok, hl]

theorem run_request_fields (g : GnuPG) (cmds args : List String)
    (create : List String) (attach : List (String × Nat)) (os : OS) :
    (GnuPG.run g cmds args create attach os).create_fhs =
      (if passTrigger g create (addStds create attach) = true
       then create ++ ["passphrase"] else create) ∧
    (GnuPG.run g cmds args create attach os).attach_fhs =
      addStds create attach := by
  by_cases hp : passTrigger g create (addStds create attach) = true
  · rw [if_pos hp]
    cases hafe : attach_fork_exec g cmds args (create ++ ["passphrase"])
      (addStds create attach) os with
    | mk r os1 =>
      cases r with
      | error e =>
        rw [run_eq_error_pass g cmds args create attach os e os1 hp hafe]
        exact ⟨rfl, rfl⟩
      | ok proc =>
        cases hl : dictLookup "passphrase" proc.handles with
        | none =>
          rw [run_eq_ok_pass_missing g cmds args create attach os proc os1
            hp hafe hl]
          exact ⟨rfl, rfl⟩
        | some fm =>
          rw [run_eq_ok_pass g cmds args create attach os proc os1 fm.1 fm.2
            hp hafe (by rw [hl])]
          exact ⟨rfl, rfl⟩
  · have hp' : passTrigger g create (addStds create attach) = false := by
      simpa using hp
    rw [if_neg hp]
    cases hafe : attach_fork_exec g cmds args create
      (addStds create attach) os with
    | mk r os1 =>
      cases r with
      | error e =>
        rw [run_eq_error_nopass g cmds args create attach os e os1 hp' hafe]
        exact ⟨rfl, rfl⟩
      | ok proc =>
        rw [run_eq_ok_nopass g cmds args create attach os proc os1 hp' hafe]
        exact ⟨rfl, rfl⟩

/- Theorems: remaining support lemmas. -/

theorem dictLookup_some_mem {α : Type} (k : String) (v : α) :
    ∀ l : List (String × α), dictLookup k l = some v → (k, v) ∈ l
  | [], h => by simp [dictLookup] at h
  | (k0, v0) :: rest, h => by
    by_cases h0 : k0 = k
    · subst h0
      have hv : v0 = v := by simpa [dictLookup] using h
      subst hv
      exact List.mem_cons_self _ _
    · simp only [dictLookup, if_neg h0] at h
      exact List.mem_cons_of_mem _ (dictLookup_some_mem k v rest h)

theorem std_fd_modes_valid :
    ∀ s ∈ stds, (dictLookup s fd_modes).isSome = true := by decide

theorem checkNames_error_shape :
    ∀ (l : List String) (e : GErr), checkNames l = .error e →
      ∃ k, e = .keyError k
  | [], e, h => by simp [checkNames] at h
  | n :: rest, e, h => by
    by_cases hv : (dictLookup n fd_modes).isSome = true
    · simp only [checkNames, if_pos hv] at h
      exact checkNames_error_shape rest e h
    · simp only [checkNames, if_neg hv, Except.error.injEq] at h
      exact ⟨n, h.symm⟩

theorem attach_fork_exec_of_checkNames_error (g : GnuPG)
    (cmds args : List String) (create : List String)
    (attach : List (String × Nat)) (os : OS) (e : GErr)
    (h : checkNames (create ++ attach.map Prod.fst) = .error e) :
    attach_fork_exec g cmds args create attach os = (.error e, os) := by
  simp [attach_fork_exec, h]

theorem takeWhile_congr {α : Type} (p q : α → Bool) :
    ∀ l : List α, (∀ x ∈ l, p x = q x) → l.takeWhile p = l.takeWhile q
  | [], _ => rfl
  | x :: rest, h => by
    have hx := h x (List.mem_cons_self _ _)
    simp only [List.takeWhile_cons, hx]
    cases hq : q x with
    | false => simp
    | true =>
      simp only [if_pos rfl]
      rw [takeWhile_congr p q rest (fun y hy => h y (List.mem_cons_of_mem _ hy))]

theorem takeWhile_append_left {α : Type} (p : α → Bool) :
    ∀ (l1 l2 : List α), (∃ x ∈ l1, p x = false) →
      (l1 ++ l2).takeWhile p = l1.takeWhile p
  | [], l2, h => by simp at h
  | x :: rest, l2, h => by
    cases hp : p x with
    | false => simp [List.takeWhile_cons, hp]
    | true =>
      have h' : ∃ y ∈ rest, p y = false := by
        obtain ⟨y, hy, hyp⟩ := h
        rcases List.mem_cons.mp hy with rfl | hy
        · rw [hp] at hyp
          simp at hyp
        · exact ⟨y, hy, hyp⟩
      simp only [List.cons_append, List.takeWhile_cons, hp]
      rw [takeWhile_append_left p rest l2 h']

theorem attach_fork_exec_leak (g : GnuPG) (cmds args : List String)
    (create : List String) (attach : List (String × Nat)) (os : OS)
    (e : GErr) (os' : OS)
    (h : attach_fork_exec g cmds args create attach os = (.error e, os'))
    (he : e = .pipeAllocationFailed ∨ e = .spawnFailed) :
    (∃ t, os'.openFds = os.openFds ++ t ∧
      t.length = 2 * (os.pipeBudget - os'.pipeBudget)) ∧
    os'.pipeBudget ≤ os.pipeBudget ∧ os'.spawnCount = os.spawnCount := by
  rw [attach_fork_exec] at h
  cases hcn : checkNames (create ++ attach.map Prod.fst) with
  | error e0 =>
    simp only [hcn, Prod.mk.injEq, Except.error.injEq] at h
    obtain ⟨k, hk⟩ := checkNames_error_shape _ e0 hcn
    rw [← h.1, hk] at he
    rcases he with he | he <;> simp at he
  | ok u =>
    cases u
    simp only [hcn] at h
    cases hcp : createPipes attach create Process.init os with
    | mk r1 os1 =>
      cases r1 with
      | error e0 =>
        simp only [hcp, Prod.mk.injEq, Except.error.injEq] at h
        obtain ⟨he0, hos1⟩ := h
        obtain ⟨_, ht, hb, _, hsc, _⟩ :=
          createPipes_error attach create Process.init os e0 os1 hcp
        rw [← hos1]
        exact ⟨ht, hb, hsc⟩
      | ok proc1 =>
        simp only [hcp] at h
        obtain ⟨i1, i2, i3, i4, i5, i6, i7, i8, i9, i10, i11, i12, i13⟩ :=
          createPipes_ok attach create Process.init os proc1 os1 hcp
        cases hlp : launch_process g cmds args (attachPipes attach proc1)
          os1 with
        | mk r2 os2 =>
          cases r2 with
          | error e0 =>
            simp only [hlp, Prod.mk.injEq, Except.error.injEq] at h
            obtain ⟨he0, hos2⟩ := h
            obtain ⟨hos2', _⟩ :=
              launch_process_error g cmds args _ os1 e0 os2 hlp
            rw [← hos2, hos2']
            refine ⟨⟨allocFds create.length os.nextFd, i2, ?_⟩, ?_, i6⟩
            · rw [allocFds_length, i3]
              omega
            · rw [i3]
              omega
          | ok proc3 =>
            simp only [hlp] at h
            rcases handle_pipes_ok_cases proc3 os2 (.error e) os' h with
              ⟨proc0, os0, _, habs, _⟩ | ⟨e0, os0, haux, he0, _⟩
            · simp at habs
            · obtain ⟨k, hk⟩ := handle_pipesAux_error_shape _ _ _ _ _ haux
              simp only [Except.error.injEq] at he0
              rw [he0, hk] at he
              rcases he with he | he <;> simp at he

theorem attach_fork_exec_ok_handle_of_create (g : GnuPG)
    (cmds args : List String) (create : List String)
    (attach : List (String × Nat)) (os : OS) (proc' : Process) (os' : OS)
    (h : attach_fork_exec g cmds args create attach os = (.ok proc', os')) :
    (∀ n ∈ create, (dictLookup n proc'.handles).isSome = true) ∧
    (proc'.handles.map Prod.fst).Nodup := by
  rw [attach_fork_exec] at h
  cases hcn : checkNames (create ++ attach.map Prod.fst) with
  | error e => simp [hcn] at h
  | ok u =>
    cases u
    simp only [hcn] at h
    cases hcp : createPipes attach create Process.init os with
    | mk r1 os1 =>
      cases r1 with
      | error e => simp [hcp] at h
      | ok proc1 =>
        simp only [hcp] at h
        obtain ⟨i1, i2, i3, i4, i5, i6, i7, i8, i9, i10, i11, i12, i13⟩ :=
          createPipes_ok attach create Process.init os proc1 os1 hcp
        cases hlp : launch_process g cmds args (attachPipes attach proc1)
          os1 with
        | mk r2 os2 =>
          cases r2 with
          | error e => simp [hlp] at h
          | ok proc3 =>
            simp only [hlp] at h
            obtain ⟨fa, pin, pout, perr, hfa, _, _, _, _, _, hproc3, _⟩ :=
              launch_process_ok g cmds args _ os1 proc3 os2 hlp
            have hhandles3 : proc3.handles = [] := by
              rw [hproc3]
              show (attachPipes attach proc1).handles = []
              rw [(attachPipes_fields attach proc1).1, i9]
              rfl
            rcases handle_pipes_ok_cases proc3 os2 (.ok proc') os' h with
              ⟨proc0, os0, haux, hres, _⟩ | ⟨e0, os0, _, habs, _⟩
            · simp only [Except.ok.injEq] at hres
              constructor
              · intro n hn
                obtain ⟨p, hp, hpd⟩ :=
                  createPipes_ok_lookup attach create Process.init os proc1
                    os1 hcp n (Or.inl hn)
                have hnattach : n ∉ attach.map Prod.fst := by
                  rw [← dictLookup_eq_none_iff]
                  exact i8 n hn
                have hp2 : dictLookup n (attachPipes attach proc1).pipes =
                    some p := by
                  rw [attachPipes_lookup_not_mem n attach proc1 hnattach]
                  exact hp
                have hp3 : dictLookup n proc3.pipes = some p := by
                  rw [hproc3]
                  exact hp2
                have := handle_pipesAux_lookup_of_pipe proc3.pipes proc3 os2
                  proc0 os0 haux n p hp3 hpd
                rw [hres]
                exact this
              · have := handle_pipesAux_nodup proc3.pipes proc3 os2 proc0 os0
                  haux (by rw [hhandles3]; exact List.nodup_nil)
                rw [hres]
                exact this
            · simp at habs

/- Claim theorems. -/

/-- C9: `Process.wait` blocks until the child exits and then reports a
failure carrying the exit code (the `IOError` with the code) if and only if
the exit code is non-zero; a child exiting 0 makes `wait` return success.
(Blocking is outside the state model; the exit-status mapping is what is
verified.) -/
theorem C9_wait_exit_mapping (code : Int) :
    (code ≠ 0 → Process.wait code = .error (.ioError code)) ∧
    (code = 0 → Process.wait code = .ok ()) := by
  constructor
  · intro h
    simp [Process.wait, h]
  · intro h
    simp [Process.wait, h]

/-- Witness for C9 at the concrete exit codes 2 (failure carrying 2) and 0
(success). -/
theorem C9_wait_exit_mapping_witness :
    Process.wait 2 = .error (.ioError 2) ∧ Process.wait 0 = .ok () :=
  ⟨(C9_wait_exit_mapping 2).1 (by decide), (C9_wait_exit_mapping 0).2 rfl⟩

/-- C10: `run` mutates the caller-supplied request containers in place:
every standard name absent from both sets is appended to the caller's
`attach_fhs` dictionary (bound to the caller's own standard stream), and
when the passphrase convenience triggers, `"passphrase"` is appended to the
caller's `create_fhs` list — so a caller passing the same containers to a
second `run` call observes them grown after the first. -/
theorem C10_run_mutates_containers (g : GnuPG) (cmds args : List String)
    (create : List String) (attach : List (String × Nat)) (os : OS) :
    (GnuPG.run g cmds args create attach os).attach_fhs =
      attach ++ (stds.filter (fun s =>
        decide (dictLookup s attach = none ∧ s ∉ create))).map
        (fun s => (s, stdFd s)) ∧
    ((g.passphrase.isSome = true ∧ dictLookup "passphrase" attach = none ∧
        "passphrase" ∉ create) →
      (GnuPG.run g cmds args create attach os).create_fhs =
        create ++ ["passphrase"]) ∧
    (¬(g.passphrase.isSome = true ∧ dictLookup "passphrase" attach = none ∧
        "passphrase" ∉ create) →
      (GnuPG.run g cmds args create attach os).create_fhs = create) := by
  obtain ⟨hc, ha⟩ := run_request_fields g cmds args create attach os
  refine ⟨?_, ?_, ?_⟩
  · rw [ha, addStds_eq]
  · intro ht
    rw [hc, if_pos ((passTrigger_iff g create attach).mpr ht)]
  · intro ht
    rw [hc, if_neg (fun hp => ht ((passTrigger_iff g create attach).mp hp))]

/-- Witness for C10: with a configured passphrase and empty request
containers, the caller's attach dictionary gains the three standard streams
and the caller's create list gains `"passphrase"`. -/
theorem C10_run_mutates_containers_witness :
    (GnuPG.run ⟨"gpg", some "hunter2", Options.init⟩ [] [] [] []
      ⟨3, [0, 1, 2], 10, true, 0, 100⟩).attach_fhs =
      [("stdin", 0), ("stdout", 1), ("stderr", 2)] ∧
    (GnuPG.run ⟨"gpg", some "hunter2", Options.init⟩ [] [] [] []
      ⟨3, [0, 1, 2], 10, true, 0, 100⟩).create_fhs = ["passphrase"] := by
  have h := C10_run_mutates_containers ⟨"gpg", some "hunter2", Options.init⟩
    [] [] [] [] ⟨3, [0, 1, 2], 10, true, 0, 100⟩
  refine ⟨?_, ?_⟩
  · rw [h.1]
    rfl
  · rw [h.2.1 ⟨rfl, rfl, by simp⟩]
    rfl

/-- C5 (amended): on a successful launch the final argument vector equals
`[executablePath] ++ descriptorFlagArgs ++ optionArgs ++ commandTokens ++
positionalArgs`, where the descriptor-flag arguments list, for every
non-standard handle in the pipe map, its registered flag followed by the
decimal child-side descriptor — in the pipe dictionary's iteration order,
which is not a canonical order of the map (see the counterexample). -/
theorem C5_argv_structure (g : GnuPG) (cmds args : List String)
    (proc : Process) (os : OS) (proc' : Process) (os' : OS)
    (h : launch_process g cmds args proc os = (.ok proc', os')) :
    ∃ fa, fdArgs proc.pipes = .ok fa ∧
      proc'.subprocCommand =
        some ([g.call] ++ fa ++ g.options.get_args ++ cmds ++ args) ∧
      fa = ((proc.pipes.filter (fun kp => decide (kp.1 ∉ stds))).map
        (fun kp => [(dictLookup kp.1 fd_options).getD "",
          toString kp.2.child])).flatten := by
  obtain ⟨fa, pin, pout, perr, hfa, _, _, _, _, _, hproc', _⟩ :=
    launch_process_ok g cmds args proc os proc' os' h
  exact ⟨fa, hfa, by rw [hproc'], fdArgs_ok_join proc.pipes fa hfa⟩

/-- Counterexample for C5 as stated: the descriptor-flag arguments depend on
the iteration order of the `_pipes` dictionary — two pipe maps equal as sets
of entries (a permutation of one another) produce different argument
vectors, so the order is not independent of the unordered container's
iteration order. -/
theorem C5_counterexample :
    ([("logger", Pipe.mk 3 4 false), ("status", Pipe.mk 5 6 false)] :
        List (String × Pipe)).Perm
      [("status", Pipe.mk 5 6 false), ("logger", Pipe.mk 3 4 false)] ∧
    fdArgs [("logger", Pipe.mk 3 4 false), ("status", Pipe.mk 5 6 false)] =
      .ok ["--logger-fd", "4", "--status-fd", "6"] ∧
    fdArgs [("status", Pipe.mk 5 6 false), ("logger", Pipe.mk 3 4 false)] =
      .ok ["--status-fd", "6", "--logger-fd", "4"] ∧
    (["--logger-fd", "4", "--status-fd", "6"] : List String) ≠
      ["--status-fd", "6", "--logger-fd", "4"] :=
  ⟨List.Perm.swap _ _ _, rfl, rfl, by decide⟩

/-- C8: any request naming a handle outside the closed set
{stdin, stdout, stderr, passphrase, command, logger, status} makes `run`
fail with a `KeyError` naming an unrecognized requested handle, and the OS
state is returned unchanged — zero pipes are created, the name check over
the request precedes any resource allocation. -/
theorem C8_unrecognized_handle (g : GnuPG) (cmds args : List String)
    (create : List String) (attach : List (String × Nat)) (os : OS)
    (h : ∃ n ∈ create ++ attach.map Prod.fst, dictLookup n fd_modes = none) :
    ∃ m, (GnuPG.run g cmds args create attach os).result =
        .error (.keyError m) ∧
      m ∈ create ++ attach.map Prod.fst ∧ dictLookup m fd_modes = none ∧
      (GnuPG.run g cmds args create attach os).os = os := by
  obtain ⟨n, hn, hninv⟩ := h
  set create2 := (if passTrigger g create (addStds create attach) = true
    then create ++ ["passphrase"] else create) with hcreate2
  have hn2 : n ∈ create2 ++ (addStds create attach).map Prod.fst := by
    rcases List.mem_append.mp hn with hn | hn
    · refine List.mem_append.mpr (Or.inl ?_)
      rw [hcreate2]
      by_cases hp : passTrigger g create (addStds create attach) = true
      · rw [if_pos hp]
        exact List.mem_append.mpr (Or.inl hn)
      · rw [if_neg hp]
        exact hn
    · refine List.mem_append.mpr (Or.inr ?_)
      rw [addStds_eq, List.map_append]
      exact List.mem_append.mpr (Or.inl hn)
  obtain ⟨m, hcheck, hm, hminv⟩ := checkNames_fails _ ⟨n, hn2, hninv⟩
  have hafe := attach_fork_exec_of_checkNames_error g cmds args create2
    (addStds create attach) os _ hcheck
  have hmorig : m ∈ create ++ attach.map Prod.fst := by
    rcases List.mem_append.mp hm with hm | hm
    · rw [hcreate2] at hm
      by_cases hp : passTrigger g create (addStds create attach) = true
      · rw [if_pos hp] at hm
        rcases List.mem_append.mp hm with hm | hm
        · exact List.mem_append.mpr (Or.inl hm)
        · exfalso
          simp only [List.mem_singleton] at hm
          subst hm
          exact absurd hminv (by decide)
      · rw [if_neg hp] at hm
        exact List.mem_append.mpr (Or.inl hm)
    · rcases addStds_keys create attach m hm with hm | hm
      · exact List.mem_append.mpr (Or.inr hm)
      · exfalso
        have := std_fd_modes_valid m hm
        rw [hminv] at this
        simp at this
  refine ⟨m, ?_, hmorig, hminv, ?_⟩
  · by_cases hp : passTrigger g create (addStds create attach) = true
    · rw [run_eq_error_pass g cmds args create attach os _ os hp
        (by rw [hcreate2, if_pos hp] at hafe; exact hafe)]
    · rw [run_eq_error_nopass g cmds args create attach os _ os
        (by simpa using hp)
        (by rw [hcreate2, if_neg hp] at hafe; exact hafe)]
  · by_cases hp : passTrigger g create (addStds create attach) = true
    · rw [run_eq_error_pass g cmds args create attach os _ os hp
        (by rw [hcreate2, if_pos hp] at hafe; exact hafe)]
    · rw [run_eq_error_nopass g cmds args create attach os _ os
        (by simpa using hp)
        (by rw [hcreate2, if_neg hp] at hafe; exact hafe)]

/-- Witness for C8: requesting the unrecognized handle name `"bogus"` fails
with a `KeyError` naming it and leaves the OS untouched. -/
theorem C8_unrecognized_handle_witness :
    ∃ m, (GnuPG.run ⟨"gpg", none, Options.init⟩ [] [] ["bogus"] []
        ⟨3, [0, 1, 2], 10, true, 0, 100⟩).result = .error (.keyError m) ∧
      m ∈ (["bogus"] ++ ([] : List (String × Nat)).map Prod.fst) ∧
      dictLookup m fd_modes = none ∧
      (GnuPG.run ⟨"gpg", none, Options.init⟩ [] [] ["bogus"] []
        ⟨3, [0, 1, 2], 10, true, 0, 100⟩).os = ⟨3, [0, 1, 2], 10, true, 0, 100⟩ :=
  C8_unrecognized_handle ⟨"gpg", none, Options.init⟩ [] [] ["bogus"] []
    ⟨3, [0, 1, 2], 10, true, 0, 100⟩ ⟨"bogus", by decide, by decide⟩

/-- Counterexample for C1 as stated: a request with the conflicting name
second in `create_fhs` still fails with the `ValueError`, but only after the
pipe for the first name was created — descriptors 3 and 4, allocated by this
very call, remain open after the error, so the failure is not "before any OS
pipe is created" and there is something left to clean up. -/
theorem C1_counterexample :
    (GnuPG.run gW [] [] ["stdout", "stdin"] [("stdin", 7)] osW).result =
      .error (.valueError "stdin") ∧
    (GnuPG.run gW [] [] ["stdout", "stdin"] [("stdin", 7)] osW).os.openFds =
      [0, 1, 2, 3, 4] :=
  ⟨rfl, rfl⟩

/-- C1 (amended): when some name appears in both `create_fhs` and
`attach_fhs` (all requested names recognized, pipe budget sufficient), `run`
fails with the `ValueError` for a conflicting name — but the conflict check
is interleaved with allocation: the pipes created for the names preceding
the first conflict in `create_fhs` remain open (two descriptors per earlier
name) rather than the error being detected before any pipe is created. -/
theorem C1_conflict_interleaved (g : GnuPG) (cmds args : List String)
    (create : List String) (attach : List (String × Nat)) (os : OS)
    (hvalid : ∀ n ∈ create ++ attach.map Prod.fst,
      (dictLookup n fd_modes).isSome = true)
    (hconf : ∃ n ∈ create, (dictLookup n attach).isSome = true)
    (hbudget : create.length ≤ os.pipeBudget) :
    ∃ c, (GnuPG.run g cmds args create attach os).result =
        .error (.valueError c) ∧
      (dictLookup c attach).isSome = true ∧ c ∈ create ∧
      (GnuPG.run g cmds args create attach os).os.openFds =
        os.openFds ++ allocFds
          (create.takeWhile (fun n => (dictLookup n attach).isNone)).length
          os.nextFd := by
  have hlook : ∀ n ∈ create, dictLookup n (addStds create attach) =
      dictLookup n attach :=
    fun n hn => addStds_lookup_of_mem_create create attach n hn
  have hcheck : ∀ create2 : List String,
      (∀ n ∈ create2, n ∈ create ∨ n = "passphrase") →
      checkNames (create2 ++ (addStds create attach).map Prod.fst) =
        .ok () := by
    intro create2 hsub
    apply checkNames_ok_of
    intro n hn
    rcases List.mem_append.mp hn with hn | hn
    · rcases hsub n hn with hn | rfl
      · exact hvalid n (List.mem_append.mpr (Or.inl hn))
      · decide
    · rcases addStds_keys create attach n hn with hn | hn
      · exact hvalid n (List.mem_append.mpr (Or.inr hn))
      · exact std_fd_modes_valid n hn
  have htwc : create.takeWhile
      (fun n => (dictLookup n (addStds create attach)).isNone) =
      create.takeWhile (fun n => (dictLookup n attach).isNone) :=
    takeWhile_congr _ _ create (fun x hx => by rw [hlook x hx])
  have hfalse : ∃ n ∈ create,
      (fun n => (dictLookup n (addStds create attach)).isNone) n = false := by
    obtain ⟨n, hn, hns⟩ := hconf
    refine ⟨n, hn, ?_⟩
    show (dictLookup n (addStds create attach)).isNone = false
    rw [hlook n hn]
    cases hd : dictLookup n attach with
    | none =>
      rw [hd] at hns
      simp at hns
    | some v => simp
  by_cases hp : passTrigger g create (addStds create attach) = true
  · have hconf2 : ∃ n ∈ create ++ ["passphrase"],
        (dictLookup n (addStds create attach)).isSome = true := by
      obtain ⟨n, hn, hns⟩ := hconf
      exact ⟨n, List.mem_append.mpr (Or.inl hn), by rw [hlook n hn]; exact hns⟩
    have htw2 : (create ++ ["passphrase"]).takeWhile
        (fun n => (dictLookup n (addStds create attach)).isNone) =
        create.takeWhile (fun n => (dictLookup n attach).isNone) := by
      rw [takeWhile_append_left _ create _ hfalse]
      exact htwc
    obtain ⟨c, os1, hrun1, hcs2, hcm2, hfds⟩ :=
      createPipes_conflict (addStds create attach) (create ++ ["passphrase"])
        Process.init os hconf2
        (by rw [htw2]
            exact le_trans (List.takeWhile_sublist _).length_le hbudget)
    have hcm : c ∈ create := by
      rcases List.mem_append.mp hcm2 with hcm2 | hcm2
      · exact hcm2
      · exfalso
        simp only [List.mem_singleton] at hcm2
        subst hcm2
        have hpt := (passTrigger_iff g create attach).mp hp
        rw [addStds_lookup_passphrase, hpt.2.1] at hcs2
        simp at hcs2
    have hafe : attach_fork_exec g cmds args (create ++ ["passphrase"])
        (addStds create attach) os = (.error (.valueError c), os1) := by
      have hchk2 := hcheck (create ++ ["passphrase"]) (by
        intro n hn
        rcases List.mem_append.mp hn with hn | hn
        · exact Or.inl hn
        · simp only [List.mem_singleton] at hn
          exact Or.inr hn)
      rw [List.append_assoc] at hchk2
      simp only [List.singleton_append] at hchk2
      simp [attach_fork_exec, hchk2, hrun1]
    rw [run_eq_error_pass g cmds args create attach os _ os1 hp hafe]
    refine ⟨c, rfl, by rw [← hlook c hcm]; exact hcs2, hcm, ?_⟩
    show os1.openFds = _
    rw [hfds, htw2]
  · have hp' : passTrigger g create (addStds create attach) = false := by
      simpa using hp
    have hconf2 : ∃ n ∈ create,
        (dictLookup n (addStds create attach)).isSome = true := by
      obtain ⟨n, hn, hns⟩ := hconf
      exact ⟨n, hn, by rw [hlook n hn]; exact hns⟩
    obtain ⟨c, os1, hrun1, hcs2, hcm, hfds⟩ :=
      createPipes_conflict (addStds create attach) create
        Process.init os hconf2
        (by rw [htwc]
            exact le_trans (List.takeWhile_sublist _).length_le hbudget)
    have hafe : attach_fork_exec g cmds args create
        (addStds create attach) os = (.error (.valueError c), os1) := by
      simp [attach_fork_exec, hcheck create (fun n hn => Or.inl hn), hrun1]
    rw [run_eq_error_nopass g cmds args create attach os _ os1 hp' hafe]
    refine ⟨c, rfl, by rw [← hlook c hcm]; exact hcs2, hcm, ?_⟩
    show os1.openFds = _
    rw [hfds, htwc]

/-- Witness for C1 (amended) at the counterexample scenario: the conflict on
`stdin` is reported, and exactly the one pipe created for the earlier name
`stdout` (two descriptors) stays open. -/
theorem C1_conflict_interleaved_witness :
    ∃ c, (GnuPG.run gW [] [] ["stdout", "stdin"] [("stdin", 7)] osW).result =
        .error (.valueError c) ∧
      (dictLookup c [("stdin", 7)]).isSome = true ∧ c ∈ ["stdout", "stdin"] ∧
      (GnuPG.run gW [] [] ["stdout", "stdin"] [("stdin", 7)] osW).os.openFds =
        osW.openFds ++ allocFds
          ((["stdout", "stdin"]).takeWhile
            (fun n => (dictLookup n [("stdin", 7)]).isNone)).length
          osW.nextFd :=
  C1_conflict_interleaved gW [] [] ["stdout", "stdin"] [("stdin", 7)] osW
    (by decide) ⟨"stdin", by decide, by decide⟩ (by decide)

/-- Witness for C5 (amended) at a concrete launch with one non-standard
handle: argv is the executable, the status flag with the child descriptor,
then the command tokens and positional arguments. -/
theorem C5_argv_structure_witness :
    ∃ fa, fdArgs procW.pipes = .ok fa ∧
      (Process.mk pipesW [] (some 40)
        (some ["gpg", "--status-fd", "10", "--decrypt", "file"])
        (some (3, 6, 8))).subprocCommand =
        some ([gW.call] ++ fa ++ gW.options.get_args ++
          ["--decrypt"] ++ ["file"]) ∧
      fa = ((procW.pipes.filter (fun kp => decide (kp.1 ∉ stds))).map
        (fun kp => [(dictLookup kp.1 fd_options).getD "",
          toString kp.2.child])).flatten :=
  C5_argv_structure gW ["--decrypt"] ["file"] procW
    ⟨11, [0, 1, 2], 5, true, 0, 40⟩
    (Process.mk pipesW [] (some 40)
      (some ["gpg", "--status-fd", "10", "--decrypt", "file"])
      (some (3, 6, 8)))
    ⟨11, [0, 1, 2], 5, true, 1, 41⟩ rfl

/-- Counterexample for C2 as stated: with pipe budget 1 and two create
requests, `run` fails with `PipeAllocationFailed`, but the two descriptors
of the pipe already created remain open — the parent's open-descriptor
count after the failed call differs from the count before it. -/
theorem C2_counterexample :
    (GnuPG.run gW [] [] ["stdin", "stdout"] []
      ⟨3, [0, 1, 2], 1, true, 0, 100⟩).result =
      .error .pipeAllocationFailed ∧
    (GnuPG.run gW [] [] ["stdin", "stdout"] []
      ⟨3, [0, 1, 2], 1, true, 0, 100⟩).os.openFds.length ≠
      ([0, 1, 2] : List Nat).length :=
  ⟨rfl, by decide⟩

/-- C2 (amended): when `run` fails with `PipeAllocationFailed` or
`SpawnFailed` after N pipes were created, no cleanup is performed: exactly
the 2·N descriptors of those pipes stay open, so the parent's
open-descriptor count grows by twice the number of pipes the failed call
created instead of returning to its pre-call value. -/
theorem C2_no_cleanup_on_failure (g : GnuPG) (cmds args : List String)
    (create : List String) (attach : List (String × Nat)) (os : OS)
    (e : GErr)
    (hres : (GnuPG.run g cmds args create attach os).result = .error e)
    (he : e = .pipeAllocationFailed ∨ e = .spawnFailed) :
    ∃ t, (GnuPG.run g cmds args create attach os).os.openFds =
        os.openFds ++ t ∧
      t.length = 2 * (os.pipeBudget -
        (GnuPG.run g cmds args create attach os).os.pipeBudget) := by
  by_cases hp : passTrigger g create (addStds create attach) = true
  · cases hafe : attach_fork_exec g cmds args (create ++ ["passphrase"])
      (addStds create attach) os with
    | mk r os1 =>
      cases r with
      | error e0 =>
        rw [run_eq_error_pass g cmds args create attach os e0 os1 hp hafe]
          at hres ⊢
        simp only [Except.error.injEq] at hres
        subst hres
        obtain ⟨⟨t, ht1, ht2⟩, _, _⟩ :=
          attach_fork_exec_leak g cmds args _ _ os e0 os1 hafe he
        exact ⟨t, ht1, ht2⟩
      | ok proc =>
        cases hl : dictLookup "passphrase" proc.handles with
        | none =>
          rw [run_eq_ok_pass_missing g cmds args create attach os proc os1
            hp hafe hl] at hres
          simp only [Except.error.injEq] at hres
          rw [← hres] at he
          rcases he with he | he <;> simp at he
        | some fm =>
          rw [run_eq_ok_pass g cmds args create attach os proc os1 fm.1 fm.2
            hp hafe (by rw [hl])] at hres
          simp at hres
  · have hp' : passTrigger g create (addStds create attach) = false := by
      simpa using hp
    cases hafe : attach_fork_exec g cmds args create
      (addStds create attach) os with
    | mk r os1 =>
      cases r with
      | error e0 =>
        rw [run_eq_error_nopass g cmds args create attach os e0 os1 hp' hafe]
          at hres ⊢
        simp only [Except.error.injEq] at hres
        subst hres
        obtain ⟨⟨t, ht1, ht2⟩, _, _⟩ :=
          attach_fork_exec_leak g cmds args _ _ os e0 os1 hafe he
        exact ⟨t, ht1, ht2⟩
      | ok proc =>
        rw [run_eq_ok_nopass g cmds args create attach os proc os1 hp' hafe]
          at hres
        simp at hres

/-- Witness for C2 (amended): a failed spawn after two pipes were created
leaves exactly four new descriptors open. -/
theorem C2_no_cleanup_on_failure_witness :
    ∃ t, (GnuPG.run gW [] [] ["stdin", "status"] []
        ⟨3, [0, 1, 2], 10, false, 0, 100⟩).os.openFds = [0, 1, 2] ++ t ∧
      t.length = 2 * (10 - (GnuPG.run gW [] [] ["stdin", "status"] []
        ⟨3, [0, 1, 2], 10, false, 0, 100⟩).os.pipeBudget) :=
  C2_no_cleanup_on_failure gW [] [] ["stdin", "status"] []
    ⟨3, [0, 1, 2], 10, false, 0, 100⟩ .spawnFailed rfl (Or.inr rfl)

/-- C3: a run whose resolved pipe map contains no non-standard handle name
(only standard names requested, no create/attach conflict, no passphrase
configured, sufficient pipe budget) builds an empty descriptor-flag list,
so `_launch_process` evaluates the never-assigned local `preexec_fn`: the
call raises `UnboundLocalError` and no child process is spawned. -/
theorem C3_unbound_preexec (g : GnuPG) (cmds args : List String)
    (create : List String) (attach : List (String × Nat)) (os : OS)
    (hg : g.passphrase = none)
    (hc : ∀ n ∈ create, n ∈ stds)
    (ha : ∀ kv ∈ attach, kv.1 ∈ stds)
    (hdisj : ∀ n ∈ create, dictLookup n attach = none)
    (hbudget : create.length ≤ os.pipeBudget) :
    (GnuPG.run g cmds args create attach os).result =
      .error (.unboundLocal "preexec_fn") ∧
    (GnuPG.run g cmds args create attach os).os.spawnCount =
      os.spawnCount := by
  have hp : passTrigger g create (addStds create attach) = false := by
    simp [passTrigger, hg]
  have hkeys2 : ∀ n ∈ (addStds create attach).map Prod.fst, n ∈ stds := by
    intro n hn
    rcases addStds_keys create attach n hn with hn | hn
    · simp only [List.mem_map] at hn
      obtain ⟨kv, hkv, rfl⟩ := hn
      exact ha kv hkv
    · exact hn
  have hcheck : checkNames
      (create ++ (addStds create attach).map Prod.fst) = .ok () := by
    apply checkNames_ok_of
    intro n hn
    rcases List.mem_append.mp hn with hn | hn
    · exact std_fd_modes_valid n (hc n hn)
    · exact std_fd_modes_valid n (hkeys2 n hn)
  have hdisj2 : ∀ n ∈ create,
      dictLookup n (addStds create attach) = none := by
    intro n hn
    rw [addStds_lookup_of_mem_create create attach n hn]
    exact hdisj n hn
  obtain ⟨proc1, os1, hcp⟩ := createPipes_ok_of (addStds create attach)
    create Process.init os hdisj2 hbudget
  obtain ⟨i1, i2, i3, i4, i5, i6, i7, i8, i9, i10, i11, i12, i13⟩ :=
    createPipes_ok (addStds create attach) create Process.init os proc1
      os1 hcp
  have hkeysall : ∀ kp ∈ (attachPipes (addStds create attach) proc1).pipes,
      kp.1 ∈ stds := by
    intro kp hkp
    have hk := List.mem_map_of_mem Prod.fst hkp
    rcases attachPipes_keys (addStds create attach) proc1 kp.1 hk with
      hkk | hkk
    · rcases createPipes_keys (addStds create attach) create Process.init
        os proc1 os1 hcp kp.1 hkk with hkk2 | hkk2
      · simp [Process.init] at hkk2
      · exact hc kp.1 hkk2
    · exact hkeys2 kp.1 hkk
  have hfa : fdArgs (attachPipes (addStds create attach) proc1).pipes =
      .ok [] := fdArgs_all_std _ hkeysall
  have hstdlookup : ∀ s ∈ stds, (dictLookup s
      (attachPipes (addStds create attach) proc1).pipes).isSome = true := by
    intro s hs
    rcases addStds_covers create attach s hs with hsc | hsc
    · refine attachPipes_lookup_isSome _ _ _ (Or.inr ?_)
      obtain ⟨p, hp1, _⟩ := createPipes_ok_lookup (addStds create attach)
        create Process.init os proc1 os1 hcp s (Or.inl hsc)
      rw [hp1]
      rfl
    · exact attachPipes_lookup_isSome _ _ _
        (Or.inl ((dictLookup_isSome_iff _ _).mp hsc))
  obtain ⟨pin, hpin⟩ :=
    Option.isSome_iff_exists.mp (hstdlookup "stdin" (by decide))
  obtain ⟨pout, hpout⟩ :=
    Option.isSome_iff_exists.mp (hstdlookup "stdout" (by decide))
  obtain ⟨perr, hperr⟩ :=
    Option.isSome_iff_exists.mp (hstdlookup "stderr" (by decide))
  have hlaunch : launch_process g cmds args
      (attachPipes (addStds create attach) proc1) os1 =
      (.error (.unboundLocal "preexec_fn"), os1) := by
    simp [launch_process, hfa, hpin, hpout, hperr]
  have hafe : attach_fork_exec g cmds args create
      (addStds create attach) os =
      (.error (.unboundLocal "preexec_fn"), os1) := by
    simp [attach_fork_exec, hcheck, hcp, hlaunch]
  rw [run_eq_error_nopass g cmds args create attach os _ os1 hp hafe]
  exact ⟨rfl, i6⟩

/-- Witness for C3: `run(create_fhs=['stdin','stdout'])` with no passphrase
configured raises `UnboundLocalError` for `preexec_fn` and spawns nothing. -/
theorem C3_unbound_preexec_witness :
    (GnuPG.run gW [] [] ["stdin", "stdout"] [] osW).result =
      .error (.unboundLocal "preexec_fn") ∧
    (GnuPG.run gW [] [] ["stdin", "stdout"] [] osW).os.spawnCount =
      osW.spawnCount :=
  C3_unbound_preexec gW [] [] ["stdin", "stdout"] [] osW rfl (by decide)
    (by simp) (by decide) (by decide)

/-- C4: with a passphrase configured on the GnuPG object and `passphrase`
in neither request set, `run` transparently appends `passphrase` to the
create set, writes the secret bytes into that handle and closes it before
returning (the handle's descriptor is closed in the final OS state), and
the returned handle map contains no `passphrase` entry. -/
theorem C4_passphrase_convenience (g : GnuPG) (cmds args : List String)
    (create : List String) (attach : List (String × Nat)) (os : OS)
    (s : String) (proc : Process)
    (hg : g.passphrase = some s)
    (ha : dictLookup "passphrase" attach = none)
    (hc : "passphrase" ∉ create)
    (hok : (GnuPG.run g cmds args create attach os).result = .ok proc) :
    (GnuPG.run g cmds args create attach os).create_fhs =
      create ++ ["passphrase"] ∧
    dictLookup "passphrase" proc.handles = none ∧
    ∃ fd, (GnuPG.run g cmds args create attach os).trace =
        [Event.wrote fd s, Event.closedHandle fd] ∧
      fd ∉ (GnuPG.run g cmds args create attach os).os.openFds := by
  have hp : passTrigger g create (addStds create attach) = true :=
    (passTrigger_iff g create attach).mpr ⟨by rw [hg]; rfl, ha, hc⟩
  cases hafe : attach_fork_exec g cmds args (create ++ ["passphrase"])
    (addStds create attach) os with
  | mk r os1 =>
    cases r with
    | error e =>
      rw [run_eq_error_pass g cmds args create attach os e os1 hp hafe]
        at hok
      simp at hok
    | ok proc0 =>
      obtain ⟨hhsome, hhnodup⟩ := attach_fork_exec_ok_handle_of_create
        g cmds args (create ++ ["passphrase"]) (addStds create attach) os
        proc0 os1 hafe
      obtain ⟨fm, hfm⟩ := Option.isSome_iff_exists.mp
        (hhsome "passphrase" (List.mem_append.mpr (Or.inr (by simp))))
      rw [run_eq_ok_pass g cmds args create attach os proc0 os1 fm.1 fm.2
        hp hafe (by rw [hfm])] at hok ⊢
      simp only [Except.ok.injEq] at hok
      refine ⟨rfl, ?_, fm.1, ?_, ?_⟩
      · rw [← hok]
        show dictLookup "passphrase"
          (dictErase "passphrase" proc0.handles) = none
        exact dictLookup_dictErase_self "passphrase" proc0.handles hhnodup
      · show [Event.wrote fm.1 (g.passphrase.getD ""),
          Event.closedHandle fm.1] = _
        rw [hg]
        rfl
      · show fm.1 ∉ (os_close fm.1 os1).openFds
        simp [os_close, List.mem_filter]

/-- Witness for C4: with the passphrase "hunter2" configured, a concrete run
appends `passphrase` to the create list, writes and closes the secret
channel (descriptor 8), and returns handles without a `passphrase` key. -/
theorem C4_passphrase_convenience_witness :
    (GnuPG.run gWpass ["--decrypt"] [] ["stdin", "stdout"] []
      osW).create_fhs = ["stdin", "stdout"] ++ ["passphrase"] ∧
    dictLookup "passphrase" procC4.handles = none ∧
    ∃ fd, (GnuPG.run gWpass ["--decrypt"] [] ["stdin", "stdout"] []
        osW).trace = [Event.wrote fd "hunter2", Event.closedHandle fd] ∧
      fd ∉ (GnuPG.run gWpass ["--decrypt"] [] ["stdin", "stdout"] []
        osW).os.openFds :=
  C4_passphrase_convenience gWpass ["--decrypt"] [] ["stdin", "stdout"] []
    osW "hunter2" procC4 rfl rfl (by decide) rfl

/-- C6: after a successful `_attach_fork_exec` the parent has closed the
child-side descriptor of every created pipe, wrapped each created pipe's
parent-side descriptor as a stream in the direction given by the handle
registry (its `fdopen` mode is the registry entry), and filed it in
`handles` under its logical name; direct (attached) endpoints are never
closed, wrapped or inserted — the handle-map keys are exactly the created
names, the final open descriptors are the initial ones plus exactly the
wrapped parent ends, and every attached descriptor that was open stays
open. -/
theorem C6_parent_side_postprocessing (g : GnuPG) (cmds args : List String)
    (create : List String) (attach : List (String × Nat)) (os : OS)
    (proc' : Process) (os' : OS)
    (hndC : create.Nodup) (hndA : (attach.map Prod.fst).Nodup)
    (hwf : ∀ f ∈ os.openFds, f < os.nextFd)
    (h : attach_fork_exec g cmds args create attach os = (.ok proc', os')) :
    proc'.handles.map Prod.fst = create ∧
    (∀ e ∈ proc'.handles, dictLookup e.1 fd_modes = some e.2.2) ∧
    os'.openFds = os.openFds ++ proc'.handles.map (fun e => e.2.1) ∧
    (∀ kv ∈ attach, kv.2 ∈ os.openFds → kv.2 ∈ os'.openFds) := by
  obtain ⟨hvalid, hdisj, hpipes, hhandles, hpid, hcmd, hstdio, o1, o2, o3,
    o4, o5, o6⟩ := attach_fork_exec_ok_spec g cmds args create attach os
    proc' os' hndC hndA hwf h
  have hvc : ∀ n ∈ create, (dictLookup n fd_modes).isSome = true :=
    fun n hn => hvalid n (List.mem_append.mpr (Or.inl hn))
  refine ⟨?_, ?_, ?_, ?_⟩
  · rw [hhandles]
    exact wrapHandles_createdList_keys create os.nextFd hvc
  · intro e he
    rw [hhandles] at he
    exact wrapHandles_mode _ e he
  · rw [o2, hhandles]
  · intro kv hkv hopen
    rw [o2]
    exact List.mem_append.mpr (Or.inl hopen)

/-- Witness for C6: creating all three standard handles plus `status` wraps
exactly those four names with the registry modes, and the final open
descriptors are the initial three plus the four parent ends 4, 5, 7, 9 —
the child ends 3, 6, 8, 10 are closed. -/
theorem C6_parent_side_postprocessing_witness :
    procC6.handles.map Prod.fst = ["stdin", "stdout", "stderr", "status"] ∧
    (∀ e ∈ procC6.handles, dictLookup e.1 fd_modes = some e.2.2) ∧
    (OS.mk 11 [0, 1, 2, 4, 5, 7, 9] 1 true 1 41).openFds =
      [0, 1, 2] ++ procC6.handles.map (fun e => e.2.1) ∧
    (∀ kv ∈ ([] : List (String × Nat)), kv.2 ∈ [0, 1, 2] →
      kv.2 ∈ (OS.mk 11 [0, 1, 2, 4, 5, 7, 9] 1 true 1 41).openFds) :=
  C6_parent_side_postprocessing gW ["--x"] []
    ["stdin", "stdout", "stderr", "status"] [] ⟨3, [0, 1, 2], 5, true, 0, 40⟩
    procC6 ⟨11, [0, 1, 2, 4, 5, 7, 9], 1, true, 1, 41⟩
    (by decide) (by decide) (by decide) rfl

/-- C7: each standard name absent from both request sets is implicitly
attached as a direct endpoint to the calling process's own corresponding
standard stream: the resolved attach dictionary binds it to the caller's
descriptor, and on a successful run no handle is created for it, the
descriptor is not closed, and the child's corresponding standard descriptor
is that very descriptor (the child inherits the caller's stream). -/
theorem C7_std_default_attach (g : GnuPG) (cmds args : List String)
    (create : List String) (attach : List (String × Nat)) (os : OS)
    (std : String)
    (hstd : std ∈ stds) (h1 : std ∉ create)
    (h2 : dictLookup std attach = none)
    (hndC : create.Nodup) (hndA : (attach.map Prod.fst).Nodup)
    (hwf : ∀ f ∈ os.openFds, f < os.nextFd)
    (hin : stdFd std ∈ os.openFds) :
    dictLookup std (GnuPG.run g cmds args create attach os).attach_fhs =
      some (stdFd std) ∧
    ∀ proc, (GnuPG.run g cmds args create attach os).result = .ok proc →
      dictLookup std proc.handles = none ∧
      stdFd std ∈ (GnuPG.run g cmds args create attach os).os.openFds ∧
      ∃ si so se, proc.spawnStdio = some (si, so, se) ∧
        (std = "stdin" → si = stdFd std) ∧
        (std = "stdout" → so = stdFd std) ∧
        (std = "stderr" → se = stdFd std) := by
  have hstdnp : std ≠ "passphrase" := by
    simp only [stds, List.mem_cons, List.not_mem_nil, or_false] at hstd
    rcases hstd with rfl | rfl | rfl <;> decide
  constructor
  · rw [(run_request_fields g cmds args create attach os).2]
    exact addStds_lookup_std create attach std hstd h1 h2
  · intro proc hok
    by_cases hp : passTrigger g create (addStds create attach) = true
    · cases hafe : attach_fork_exec g cmds args (create ++ ["passphrase"])
        (addStds create attach) os with
      | mk r os1 =>
        cases r with
        | error e =>
          rw [run_eq_error_pass g cmds args create attach os e os1 hp hafe]
            at hok
          simp at hok
        | ok proc0 =>
          have hndC2 : (create ++ ["passphrase"]).Nodup := by
            rw [List.nodup_append]
            refine ⟨hndC, List.nodup_singleton _, ?_⟩
            intro x hx hx2
            simp only [List.mem_singleton] at hx2
            subst hx2
            exact ((passTrigger_iff g create attach).mp hp).2.2 hx
          obtain ⟨hvalid, hdisj, hpipes, hhandles, hpid, hcmd,
            ⟨pin, pout, perr, hins, houts, herrs, hstdio⟩, o1, o2, o3, o4,
            o5, o6⟩ := attach_fork_exec_ok_spec g cmds args
            (create ++ ["passphrase"]) (addStds create attach) os proc0 os1
            hndC2 (addStds_keys_nodup create attach hndA) hwf hafe
          have hstd2 : std ∉ create ++ ["passphrase"] := by
            intro hmem
            rcases List.mem_append.mp hmem with hmem | hmem
            · exact h1 hmem
            · simp only [List.mem_singleton] at hmem
              exact hstdnp hmem
          have hlookstd : dictLookup std (pipesAfterWiring
              (create ++ ["passphrase"]) (addStds create attach) os.nextFd) =
              some (Pipe.mk (stdFd std) (stdFd std) true) := by
            rw [pipesAfterWiring,
              dictLookup_append_of_none std _ _
                (createdList_lookup_none std _ os.nextFd hstd2),
              dictLookup_map_val (fun fd => Pipe.mk fd fd true) std,
              addStds_lookup_std create attach std hstd h1 h2]
            rfl
          obtain ⟨fm, hfm⟩ := Option.isSome_iff_exists.mp
            ((attach_fork_exec_ok_handle_of_create g cmds args
              (create ++ ["passphrase"]) (addStds create attach) os proc0
              os1 hafe).1 "passphrase"
              (List.mem_append.mpr (Or.inr (by simp))))
          rw [run_eq_ok_pass g cmds args create attach os proc0 os1 fm.1
            fm.2 hp hafe (by rw [hfm])] at hok ⊢
          simp only [Except.ok.injEq] at hok
          have hkeys : proc0.handles.map Prod.fst =
              create ++ ["passphrase"] := by
            rw [hhandles]
            exact wrapHandles_createdList_keys _ os.nextFd
              (fun n hn => hvalid n (List.mem_append.mpr (Or.inl hn)))
          refine ⟨?_, ?_, ?_⟩
          · rw [← hok]
            show dictLookup std
              (dictErase "passphrase" proc0.handles) = none
            rw [dictLookup_dictErase_ne std "passphrase"
              (fun he => hstdnp he.symm) proc0.handles]
            rw [dictLookup_eq_none_iff, hkeys]
            exact hstd2
          · show stdFd std ∈ (os_close fm.1 os1).openFds
            have hfd : os.nextFd ≤ fm.1 := by
              have hmem := dictLookup_some_mem "passphrase" fm
                proc0.handles hfm
              rw [hhandles] at hmem
              exact wrapHandles_createdList_parent_ge _ os.nextFd
                ("passphrase", fm) hmem
            have hlt : stdFd std < os.nextFd := hwf _ hin
            simp only [os_close, List.mem_filter]
            refine ⟨by rw [o2]; exact List.mem_append.mpr (Or.inl hin), ?_⟩
            simp only [decide_eq_true_eq]
            omega
          · refine ⟨pin.child, pout.child, perr.child, ?_, ?_, ?_, ?_⟩
            · rw [← hok]
              show proc0.spawnStdio = _
              exact hstdio
            · intro he
              subst he
              rw [hlookstd] at hins
              simp only [Option.some.injEq] at hins
              rw [← hins]
            · intro he
              subst he
              rw [hlookstd] at houts
              simp only [Option.some.injEq] at houts
              rw [← houts]
            · intro he
              subst he
              rw [hlookstd] at herrs
              simp only [Option.some.injEq] at herrs
              rw [← herrs]
    · have hp' : passTrigger g create (addStds create attach) = false := by
        simpa using hp
      cases hafe : attach_fork_exec g cmds args create
        (addStds create attach) os with
      | mk r os1 =>
        cases r with
        | error e =>
          rw [run_eq_error_nopass g cmds args create attach os e os1 hp'
            hafe] at hok
          simp at hok
        | ok proc0 =>
          obtain ⟨hvalid, hdisj, hpipes, hhandles, hpid, hcmd,
            ⟨pin, pout, perr, hins, houts, herrs, hstdio⟩, o1, o2, o3, o4,
            o5, o6⟩ := attach_fork_exec_ok_spec g cmds args create
            (addStds create attach) os proc0 os1 hndC
            (addStds_keys_nodup create attach hndA) hwf hafe
          have hlookstd : dictLookup std (pipesAfterWiring create
              (addStds create attach) os.nextFd) =
              some (Pipe.mk (stdFd std) (stdFd std) true) := by
            rw [pipesAfterWiring,
              dictLookup_append_of_none std _ _
                (createdList_lookup_none std _ os.nextFd h1),
              dictLookup_map_val (fun fd => Pipe.mk fd fd true) std,
              addStds_lookup_std create attach std hstd h1 h2]
            rfl
          rw [run_eq_ok_nopass g cmds args create attach os proc0 os1 hp'
            hafe] at hok ⊢
          simp only [Except.ok.injEq] at hok
          have hkeys : proc0.handles.map Prod.fst = create := by
            rw [hhandles]
            exact wrapHandles_createdList_keys _ os.nextFd
              (fun n hn => hvalid n (List.mem_append.mpr (Or.inl hn)))
          refine ⟨?_, ?_, ?_⟩
          · rw [← hok]
            show dictLookup std proc0.handles = none
            rw [dictLookup_eq_none_iff, hkeys]
            exact h1
          · show stdFd std ∈ os1.openFds
            rw [o2]
            exact List.mem_append.mpr (Or.inl hin)
          · refine ⟨pin.child, pout.child, perr.child, ?_, ?_, ?_, ?_⟩
            · rw [← hok]
              show proc0.spawnStdio = _
              exact hstdio
            · intro he
              subst he
              rw [hlookstd] at hins
              simp only [Option.some.injEq] at hins
              rw [← hins]
            · intro he
              subst he
              rw [hlookstd] at houts
              simp only [Option.some.injEq] at houts
              rw [← houts]
            · intro he
              subst he
              rw [hlookstd] at herrs
              simp only [Option.some.injEq] at herrs
              rw [← herrs]

/-- Witness for C7: with `stderr` in neither request set, a concrete run
attaches it to the caller's descriptor 2, creates no `stderr` handle, keeps
descriptor 2 open, and binds the child's stderr to descriptor 2. -/
theorem C7_std_default_attach_witness :
    dictLookup "stderr" (GnuPG.run gW ["--decrypt"] ["f"]
      ["stdin", "stdout", "status"] [] osW).attach_fhs =
      some (stdFd "stderr") ∧
    dictLookup "stderr" procC7.handles = none ∧
    stdFd "stderr" ∈ (GnuPG.run gW ["--decrypt"] ["f"]
      ["stdin", "stdout", "status"] [] osW).os.openFds ∧
    ∃ si so se, procC7.spawnStdio = some (si, so, se) ∧
      ("stderr" = "stdin" → si = stdFd "stderr") ∧
      ("stderr" = "stdout" → so = stdFd "stderr") ∧
      ("stderr" = "stderr" → se = stdFd "stderr") := by
  have h := C7_std_default_attach gW ["--decrypt"] ["f"]
    ["stdin", "stdout", "status"] [] osW "stderr" (by decide) (by decide)
    (by decide) (by decide) (by decide) (by decide) (by decide)
  obtain ⟨h2, h3, h4⟩ := h.2 procC7 rfl
  exact ⟨h.1, h2, h3, h4⟩

end GnuPGInterface
